import Mathlib

/-!
Verification model of the `llm-router-plugins` fast-masker subsystem.

The Python sources under `llm_router_plugins/maskers/` are embedded shallowly:

* `utils/validators.py` — checksum/format validators, as Lean functions;
* the rule classes under `rules/` — each rule's compiled regular expression
  is transcribed into an explicit regex AST (`RE`) and executed by a small
  backtracking matcher (`mat`) that mirrors Python `re` semantics
  (leftmost scan, first-alternative preference, greedy/lazy quantifiers,
  word boundaries, single-character lookarounds, named capture groups);
  `re.sub` is mirrored by `subst`;
* `core/masker.py` — the ordered default rule set and the sequential
  fold `_mask_text`;
* `payload_interface.py` — the recursive payload traversal.

All definitions are executable; the matcher carries a fuel argument that is
decremented on every step so that recursion is structural (the fuel supplied
by `subst` dominates every reachable recursion depth).  Character classes
follow the ASCII reading of `\w`, `\s`, `\d`; every input appearing in the
theorems below is ASCII, and the Polish letters that occur in rule literals
are handled case-by-case in `caseFold`.
-/

set_option maxRecDepth 8000

namespace Masker

/-- Capture list: group index paired with the captured characters. -/
abbrev Caps := List (Nat × List Char)

/-- Regex AST.  `cls` is a single-character class, `rep lo hi r` is `r{lo,hi}`
(with `hi` a concrete bound), `star`/`starL` are greedy/lazy `r*`, `wb` is
`\b`, `nla r` a negative lookahead, `nlb f` a single-character negative
lookbehind, `grp n r` a capture group. -/
inductive RE where
  | eps
  | cls (f : Char → Bool)
  | seq (a b : RE)
  | alt (a b : RE)
  | rep (lo hi : Nat) (r : RE)
  | star (r : RE)
  | starL (r : RE)
  | wb
  | nla (r : RE)
  | nlb (f : Char → Bool)
  | grp (n : Nat) (r : RE)

/-- ASCII reading of the regex word-character test `\w`. -/
def isWordChar (c : Char) : Bool := c.isAlphanum || c = '_'

/-- ASCII whitespace plus the no-break space, the characters `\s` can meet in
the inputs considered here. -/
def isSpaceChar (c : Char) : Bool :=
  c = ' ' || c = '\t' || c = '\n' || c = '\x0d' || c = '\x0b' || c = '\x0c' || c = '\u00A0'

/-- Word-boundary test between the previous character and the head of `cs`. -/
def boundaryAt (prev : Option Char) (cs : List Char) : Bool :=
  let pw := match prev with | some c => isWordChar c | none => false
  let nw := match cs with | c :: _ => isWordChar c | [] => false
  pw != nw

/-- Result passed to the top-level continuation: the character preceding the
rest of the input, the unconsumed rest, and the captures. -/
abbrev MRes := Option Char × List Char × Caps

/-- Backtracking matcher in continuation-passing style.  `prev` is the
character just before the current position (for `\b` and lookbehind), `k` is
invoked on every way the pattern can match a prefix of `cs`; alternatives are
tried in source order and quantifiers greedily (lazily for `starL`), which is
exactly Python `re`'s strategy.  Fuel decreases on every recursive call; all
uses supply more fuel than any reachable depth. -/
def mat : Nat → RE → Option Char → List Char → Caps →
    (Option Char → List Char → Caps → Option MRes) → Option MRes
  | 0, _, _, _, _, _ => none
  | fuel+1, re, prev, cs, caps, k =>
    match re with
    | .eps => k prev cs caps
    | .cls f =>
      match cs with
      | [] => none
      | c :: rest => if f c then k (some c) rest caps else none
    | .seq a b => mat fuel a prev cs caps (fun p2 r2 c2 => mat fuel b p2 r2 c2 k)
    | .alt a b =>
      match mat fuel a prev cs caps k with
      | some x => some x
      | none => mat fuel b prev cs caps k
    | .rep lo hi r =>
      match lo, hi with
      | 0, 0 => k prev cs caps
      | 0, hi+1 =>
        match mat fuel r prev cs caps
            (fun p2 r2 c2 => mat fuel (.rep 0 hi r) p2 r2 c2 k) with
        | some x => some x
        | none => k prev cs caps
      | _+1, 0 => none
      | lo+1, hi+1 =>
        mat fuel r prev cs caps (fun p2 r2 c2 => mat fuel (.rep lo hi r) p2 r2 c2 k)
    | .star r =>
      match mat fuel r prev cs caps
          (fun p2 r2 c2 =>
            if r2.length < cs.length then mat fuel (.star r) p2 r2 c2 k else none) with
      | some x => some x
      | none => k prev cs caps
    | .starL r =>
      match k prev cs caps with
      | some x => some x
      | none =>
        mat fuel r prev cs caps
          (fun p2 r2 c2 =>
            if r2.length < cs.length then mat fuel (.starL r) p2 r2 c2 k else none)
    | .wb => if boundaryAt prev cs then k prev cs caps else none
    | .nla r =>
      match mat fuel r prev cs caps (fun p2 r2 c2 => some (p2, r2, c2)) with
      | none => k prev cs caps
      | some _ => none
    | .nlb f =>
      match prev with
      | some c => if f c then none else k prev cs caps
      | none => k prev cs caps
    | .grp n r =>
      mat fuel r prev cs caps
        (fun p2 r2 c2 => k p2 r2 ((n, cs.take (cs.length - r2.length)) :: c2))

/-- Fuel supplied to the matcher: generously dominates the recursion depth of
every pattern in this file on the given input. -/
def matFuel (cs : List Char) : Nat := 100 * cs.length + 600

/-- Try to match `re` anchored at the current position. -/
def topMatch (re : RE) (prev : Option Char) (cs : List Char) : Option MRes :=
  mat (matFuel cs) re prev cs [] (fun p2 r2 c2 => some (p2, r2, c2))

/-- Scanning loop of `re.sub`: at each position try the pattern; on a match
emit the replacement and continue after it, otherwise copy one character.
A zero-width match emits the replacement and then copies one character, as
Python does (no pattern in this file can match the empty string). -/
def subGo (re : RE) (repl : List Char → Caps → List Char) :
    Nat → Option Char → List Char → List Char
  | 0, _, cs => cs
  | fuel+1, prev, cs =>
    match topMatch re prev cs with
    | none =>
      match cs with
      | [] => []
      | c :: rest => c :: subGo re repl fuel (some c) rest
    | some (p2, rest, caps) =>
      if rest.length < cs.length then
        repl (cs.take (cs.length - rest.length)) caps ++ subGo re repl fuel p2 rest
      else
        match cs with
        | [] => repl [] caps
        | c :: rest2 => repl [] caps ++ c :: subGo re repl fuel (some c) rest2

/-- Python `pattern.sub(repl, text)` on the character list `s`. -/
def subst (re : RE) (repl : List Char → Caps → List Char) (s : List Char) : List Char :=
  subGo re repl (s.length + 1) none s

/-- Look up a capture group by index (first, i.e. innermost-last, binding). -/
def capGet (caps : Caps) (n : Nat) : Option (List Char) :=
  match caps with
  | [] => none
  | (i, v) :: rest => if i = n then some v else capGet rest n

/-! ### Transcription combinators -/

/-- Case folding for the characters appearing in the rule literals: ASCII
letters plus the Polish letters used by the date-word and street rules.
Mirrors how `re.IGNORECASE` relates the two cases of each such letter. -/
def caseFold (c : Char) : Char :=
  if c = 'Ą' then 'ą' else if c = 'Ć' then 'ć' else if c = 'Ę' then 'ę'
  else if c = 'Ł' then 'ł' else if c = 'Ń' then 'ń' else if c = 'Ó' then 'ó'
  else if c = 'Ś' then 'ś' else if c = 'Ź' then 'ź' else if c = 'Ż' then 'ż'
  else c.toLower

/-- Membership in an explicitly listed character set. -/
def cSet (s : String) (c : Char) : Bool := s.data.contains c

/-- Hexadecimal digit, the class `[0-9A-Fa-f]`. -/
def cHex (c : Char) : Bool := c.isDigit || cSet "abcdefABCDEF" c

/-- Case-sensitive literal string. -/
def litS (s : String) : RE :=
  s.data.foldr (fun c r => .seq (.cls (fun x => x = c)) r) .eps

/-- Case-insensitive literal string (for patterns compiled with
`re.IGNORECASE`). -/
def litCI (s : String) : RE :=
  s.data.foldr (fun c r => .seq (.cls (fun x => caseFold x = caseFold c)) r) .eps

/-- Alternation over a list, first alternative preferred. -/
def altL : List RE → RE
  | [] => .cls (fun _ => false)
  | r :: rs =>
    match rs with
    | [] => r
    | _ :: _ => .alt r (altL rs)

/-- Sequencing over a list. -/
def seqL : List RE → RE
  | [] => .eps
  | r :: rs =>
    match rs with
    | [] => r
    | _ :: _ => .seq r (seqL rs)

/-- Greedy `r+`. -/
def plusR (r : RE) : RE := .seq r (.star r)

/-- Greedy `r?`. -/
def optR (r : RE) : RE := .alt r .eps

/-- Greedy `r{n,}`. -/
def atLeast (n : Nat) (r : RE) : RE := .seq (.rep n n r) (.star r)

/-- Python `re.fullmatch`: the pattern must consume the whole string (the
matcher backtracks until the rest is empty). -/
def fullmatchRE (re : RE) (cs : List Char) : Bool :=
  (mat (matFuel cs) re none cs []
    (fun p2 rest c2 => if rest.isEmpty then some (p2, rest, c2) else none)).isSome

/-! ### Validators (`utils/validators.py`, plus the rule-local NIP validator) -/

/-- Numeric value of a decimal digit character. -/
def digitVal (c : Char) : Nat := c.toNat - 48

/-- Python `str.isdigit` (ASCII inputs): nonempty and all digits. -/
def pyIsDigit (s : List Char) : Bool := !s.isEmpty && s.all Char.isDigit

/-- Strip the characters of `re.sub(r"[-\s]", "", ·)`. -/
def stripHyphenSpace (s : List Char) : List Char :=
  s.filter (fun c => !(c = '-' || isSpaceChar c))

/-- Strip whitespace, `re.sub(r"\s+", "", ·)`. -/
def stripSpace (s : List Char) : List Char := s.filter (fun c => !isSpaceChar c)

/-- Weighted digit sum of the first digits of a list against a weight vector. -/
def weightedSum (weights : List Nat) (digits : List Char) : Nat :=
  (List.zipWith (fun w d => w * digitVal d) weights digits).sum

/-- PESEL checksum validator, `validators.is_valid_pesel`. -/
def is_valid_pesel (pesel : String) : Bool :=
  if !(pyIsDigit pesel.data && pesel.data.length = 11) then false
  else
    let digits := pesel.data
    let checksumCalc := weightedSum [1, 3, 7, 9, 1, 3, 7, 9, 1, 3] (digits.take 10) % 10
    let checksumExpected := (10 - checksumCalc) % 10
    checksumExpected = digitVal (digits.getD 10 '0')

/-- NIP checksum validator, `nip_rule._is_valid_nip` (hyphens/spaces stripped,
then ten digits with weights `[6,5,7,2,3,4,5,6,7]` mod 11). -/
def _is_valid_nip (rawNip : String) : Bool :=
  let digits := stripHyphenSpace rawNip.data
  if !(digits.length = 10 && digits.all Char.isDigit) then false
  else
    let checksum := weightedSum [6, 5, 7, 2, 3, 4, 5, 6, 7] (digits.take 9) % 11
    checksum = digitVal (digits.getD 9 '0')

/-- KRS checksum validator, `validators.is_valid_krs` (control digit is the
weighted sum mod 11; a remainder of 10 is invalid). -/
def is_valid_krs (rawKrs : String) : Bool :=
  let digits := stripHyphenSpace rawKrs.data
  if !(digits.length = 10 && digits.all Char.isDigit) then false
  else
    let controlDigit := weightedSum [2, 3, 4, 5, 6, 7, 8, 9, 2] (digits.take 9) % 11
    if controlDigit = 10 then false
    else controlDigit = digitVal (digits.getD 9 '0')

/-- Checksum helper of `validators.is_valid_regon`: `sum % 11`, 10 → 0. -/
def regonChecksum (value : List Char) (weights : List Nat) : Nat :=
  let s := (List.zipWith (fun d w => digitVal d * w) value weights).sum
  let r := s % 11
  if r = 10 then 0 else r

/-- REGON validator, `validators.is_valid_regon` (9- or 14-digit forms). -/
def is_valid_regon (rawRegon : String) : Bool :=
  let digits := stripSpace rawRegon.data
  if !((digits.length = 9 || digits.length = 14) && digits.all Char.isDigit) then false
  else
    let w9 := [8, 9, 2, 3, 4, 5, 6, 7]
    if digits.length = 9 then
      regonChecksum (digits.take 8) w9 = digitVal (digits.getD 8 '0')
    else if !(regonChecksum (digits.take 8) w9 = digitVal (digits.getD 8 '0')) then false
    else
      let w14 := [2, 3, 4, 5, 6, 7, 8, 9, 2, 3, 4, 5, 6]
      regonChecksum (digits.take 13) w14 = digitVal (digits.getD 13 '0')

/-- Index-aware accumulation of `validators._luhn_checksum`'s loop: every
second digit (odd index of the reversed list) is doubled, minus 9 if above 9. -/
def luhnTotal : Nat → List Nat → Nat
  | _, [] => 0
  | i, d :: rest =>
    (if i % 2 = 1 then (if d * 2 > 9 then d * 2 - 9 else d * 2) else d) + luhnTotal (i + 1) rest

/-- Luhn checksum of a numeric string, `validators._luhn_checksum`. -/
def _luhn_checksum (number : List Char) : Nat :=
  luhnTotal 0 (number.reverse.map digitVal) % 10

/-- Strip the characters of `re.sub(r"[ -]", "", ·)` (spaces and dashes). -/
def stripCardSeps (s : List Char) : List Char :=
  s.filter (fun c => !(c = ' ' || c = '-'))

/-- Credit-card validator, `validators.is_valid_credit_card`: strip spaces and
dashes, require 13–19 digits, Luhn checksum zero. -/
def is_valid_credit_card (number : String) : Bool :=
  let cleaned := stripCardSeps number.data
  if !pyIsDigit cleaned then false
  else if !(13 ≤ cleaned.length && cleaned.length ≤ 19) then false
  else _luhn_checksum cleaned = 0

/-- NRB validator, `validators.is_valid_nrb`: 26 digits after stripping
whitespace. -/
def is_valid_nrb (nrb : String) : Bool :=
  let cleaned := stripSpace nrb.data
  pyIsDigit cleaned && cleaned.length = 26

/-- Letter-to-digit transliteration `validators._VIN_TRANSLATION`: position in
the 23-letter alphabet `ABCDEFGHJKLMNPRSTUVWXYZ` starting at 1; digits map to
their value. -/
def vinTranslation (c : Char) : Nat :=
  if c.isDigit then digitVal c
  else "ABCDEFGHJKLMNPRSTUVWXYZ".data.indexOf c + 1

/-- Weight vector `validators._VIN_WEIGHTS`. -/
def vinWeights : List Nat := [8, 7, 6, 5, 4, 3, 2, 10, 0, 9, 8, 7, 6, 5, 4, 3, 2]

/-- Character class of `[A-HJ-NPR-Z0-9]` (uppercase reading; the validator
upper-cases its input first). -/
def vinClass (c : Char) : Bool :=
  c.isDigit || cSet "ABCDEFGHJKLMNPRSTUVWXYZ" c

/-- VIN validator, `validators.is_valid_vin`: upper-case, 17 characters from
`[A-HJ-NPR-Z0-9]`, weighted transliterated sum mod 11 must equal the check
character at 0-indexed position 8 (`X` encodes remainder 10). -/
def is_valid_vin (vin : String) : Bool :=
  let v := vin.data.map Char.toUpper
  if !(v.length = 17 && v.all vinClass) then false
  else
    let total := (List.zipWith (fun ch w => vinTranslation ch * w) v vinWeights).sum
    let remainder := total % 11
    let check : Char := if remainder = 10 then 'X' else Char.ofNat (48 + remainder)
    v.getD 8 ' ' = check

/-- Car-plate validator, `validators.is_valid_car_plate`:
`re.fullmatch(r"[A-Z]{2,3}\s?\d{2,5}[A-Z]{0,2}", plate.upper())`. -/
def is_valid_car_plate (plate : String) : Bool :=
  fullmatchRE
    (seqL [.rep 2 3 (.cls (cSet "ABCDEFGHIJKLMNOPQRSTUVWXYZ")),
           optR (.cls isSpaceChar), .rep 2 5 (.cls Char.isDigit),
           .rep 0 2 (.cls (cSet "ABCDEFGHIJKLMNOPQRSTUVWXYZ"))])
    (plate.data.map Char.toUpper)

/-- SSN validator, `validators.is_valid_ssn`:
`re.fullmatch(r"\d{3}-\d{2}-\d{4}", ssn)`. -/
def is_valid_ssn (ssn : String) : Bool :=
  fullmatchRE
    (seqL [.rep 3 3 (.cls Char.isDigit), litS "-", .rep 2 2 (.cls Char.isDigit),
           litS "-", .rep 4 4 (.cls Char.isDigit)]) ssn.data

/-- MAC validator, `validators.is_valid_mac`:
`re.fullmatch(r"(?:[0-9A-Fa-f]{2}[:\-]?){5}[0-9A-Fa-f]{2}", mac)`. -/
def is_valid_mac (mac : String) : Bool :=
  fullmatchRE
    (.seq (.rep 5 5 (.seq (.rep 2 2 (.cls cHex)) (optR (.cls (cSet ":-")))))
          (.rep 2 2 (.cls cHex))) mac.data

/-- Base64url character class `[A-Za-z0-9\-_]`. -/
def cB64 (c : Char) : Bool := c.isAlphanum || c = '-' || c = '_'

/-- JWT shape validator, `validators.is_possible_jwt`: exactly three
dot-separated base64url segments, the first two at least 20 characters. -/
def is_possible_jwt (jwt : String) : Bool :=
  let parts := jwt.splitOn "."
  if !(parts.length = 3) then false
  else
    (List.range parts.length).all fun i =>
      let p := (parts.getD i "").data
      !p.isEmpty && p.all cB64 && (i ≥ 2 || p.length ≥ 20)

/-- ICCID validator, `validators.is_valid_sim_iccid`: 19 or 20 digits after
stripping whitespace. -/
def is_valid_sim_iccid (iccid : String) : Bool :=
  let cleaned := stripSpace iccid.data
  pyIsDigit cleaned && 19 ≤ cleaned.length && cleaned.length ≤ 20

/-- SSL-serial validator, `validators.is_valid_ssl_serial`:
`re.fullmatch(r"[0-9A-Fa-f]{16,40}", serial)`. -/
def is_valid_ssl_serial (serial : String) : Bool :=
  serial.data.all cHex && 16 ≤ serial.data.length && serial.data.length ≤ 40

/-- Transaction-reference validator,
`validators.is_possible_transaction_ref`: length 8–64 and at least one digit. -/
def is_possible_transaction_ref (ref : String) : Bool :=
  8 ≤ ref.data.length && ref.data.length ≤ 64 && ref.data.any Char.isDigit

/-! ### Rule patterns

Each definition transcribes one rule's compiled regular expression, in the
order of `FastMasker.ALL_MASKER_RULES`.  Comments quote the Python pattern
(whitespace of `re.VERBOSE` stripped). -/

/-- Placeholder literal: `ph "X"` is the token `{{X}}` as characters. -/
def ph (s : String) : List Char := ("\x7b\x7b" ++ s ++ "\x7d\x7d").data

/-- Digit class `\d`. -/
def cD : RE := .cls Char.isDigit

/-- Letter class `[A-Z]` under `re.IGNORECASE`. -/
def cA : RE := .cls Char.isAlpha

/-- Markdown-marker class `[_*]`. -/
def cMark : RE := .cls (cSet "_*")

/-- Whitespace class `\s`. -/
def cS : RE := .cls isSpaceChar

/-- `credit_card_rule`: `\b\d{4}[ -]?\d{4}[ -]?\d{4}[ -]?\d{1,7}\b`. -/
def ccRE : RE :=
  seqL [.wb, .rep 4 4 cD, optR (.cls (cSet " -")), .rep 4 4 cD, optR (.cls (cSet " -")),
        .rep 4 4 cD, optR (.cls (cSet " -")), .rep 1 7 cD, .wb]

/-- `vin_rule`: `\b[A-HJ-NPR-Z0-9]{17}\b` (IGNORECASE). -/
def vinRE : RE := seqL [.wb, .rep 17 17 (.cls (fun c => vinClass c.toUpper)), .wb]

/-- `pesel_tagged_rule`: `\bPESEL[:\s]+(?P<pesel>\d{11})\b` (IGNORECASE). -/
def peselTaggedRE : RE :=
  seqL [.wb, litCI "PESEL", plusR (.cls (fun c => c = ':' || isSpaceChar c)),
        .grp 1 (.rep 11 11 cD), .wb]

/-- `pesel_rule`: `(?<!\w)(?:[_*]+)?(?P<pesel>\d{11})(?:[_*]+)?(?!\w)`. -/
def peselRE : RE :=
  seqL [.nlb isWordChar, optR (plusR cMark), .grp 1 (.rep 11 11 cD),
        optR (plusR cMark), .nla (.cls isWordChar)]

/-- Hyphen-grouped ten digits `\d{3}-?\d{3}-?\d{2}-?\d{2}`, shared by the NIP
and KRS patterns. -/
def tenDigitsHyph : RE :=
  seqL [.rep 3 3 cD, optR (litS "-"), .rep 3 3 cD, optR (litS "-"),
        .rep 2 2 cD, optR (litS "-"), .rep 2 2 cD]

/-- `nip_rule`:
`(?<!\d)(?:[_*]+)?(?P<digits>(?:\d{3}-?\d{3}-?\d{2}-?\d{2})|\d{10})(?:[_*]+)?(?!\d)`. -/
def nipRE : RE :=
  seqL [.nlb Char.isDigit, optR (plusR cMark),
        .grp 1 (.alt tenDigitsHyph (.rep 10 10 cD)),
        optR (plusR cMark), .nla cD]

/-- `krs_rule`: `\b(?P<krs>(?:\d{3}-?\d{3}-?\d{2}-?\d{2})|\d{10})\b`. -/
def krsRE : RE :=
  seqL [.wb, .grp 1 (.alt tenDigitsHyph (.rep 10 10 cD)), .wb]

/-- `regon_rule`: `\b(?P<reg>(?:\d{2}\s?\d{3}\s?\d{4})(?:\s?\d{5})?)\b`. -/
def regonRE : RE :=
  seqL [.wb,
        .grp 1 (seqL [.rep 2 2 cD, optR cS, .rep 3 3 cD, optR cS, .rep 4 4 cD,
                      optR (.seq (optR cS) (.rep 5 5 cD))]),
        .wb]

/-- `nrb_rule`:
`\b(?:\d{2}\s?\d{4}\s?\d{4}\s?\d{4}\s?\d{4}\s?\d{4}\s?\d{4})|(?:\d{26})\b`
(the alternation binds loosely: the leading `\b` belongs only to the first
branch and the trailing `\b` only to the second). -/
def nrbRE : RE :=
  .alt (seqL [.wb, .rep 2 2 cD, optR cS, .rep 4 4 cD, optR cS, .rep 4 4 cD, optR cS,
              .rep 4 4 cD, optR cS, .rep 4 4 cD, optR cS, .rep 4 4 cD, optR cS,
              .rep 4 4 cD])
       (.seq (.rep 26 26 cD) .wb)

/-- `mac_address_rule`: `\b(?:[0-9A-Fa-f]{2}[:\-]?){5}[0-9A-Fa-f]{2}\b`. -/
def macRE : RE :=
  seqL [.wb, .rep 5 5 (.seq (.rep 2 2 (.cls cHex)) (optR (.cls (cSet ":-")))),
        .rep 2 2 (.cls cHex), .wb]

/-- `passport_rule`: `\b[A-Z]{2}\d{7}\b` (IGNORECASE). -/
def passportRE : RE := seqL [.wb, .rep 2 2 cA, .rep 7 7 cD, .wb]

/-- `id_card_rule`: `\b[A-Z]{3}\d{6}\b` (IGNORECASE). -/
def idCardRE : RE := seqL [.wb, .rep 3 3 cA, .rep 6 6 cD, .wb]

/-- `ssn_rule`: `\b\d{3}-\d{2}-\d{4}\b`. -/
def ssnRE : RE :=
  seqL [.wb, .rep 3 3 cD, litS "-", .rep 2 2 cD, litS "-", .rep 4 4 cD, .wb]

/-- `phone_international_rule`: `\b\+\d{1,3}(?:[ \-]?\d{1,4}){2,5}\b`. -/
def phoneIntlRE : RE :=
  seqL [.wb, litS "+", .rep 1 3 cD,
        .rep 2 5 (.seq (optR (.cls (cSet " -"))) (.rep 1 4 cD)), .wb]

/-- Local-part class `[A-Za-z0-9._%+-]` of the email pattern. -/
def cLocal : RE := .cls (fun c => c.isAlphanum || cSet "._%+-" c)

/-- Domain class `[A-Za-z0-9.-]` of the email pattern. -/
def cDomain : RE := .cls (fun c => c.isAlphanum || cSet ".-" c)

/-- `email_rule`: `_?[A-Za-z0-9._%+-]+@[A-Za-z0-9.-]+\.[A-Za-z]{2,}_?`
(IGNORECASE). -/
def emailRE : RE :=
  seqL [optR (litS "_"), plusR cLocal, litS "@", plusR cDomain, litS ".",
        atLeast 2 cA, optR (litS "_")]

/-- Subdomain/domain-label class `[A-Za-z0-9-]` of the URL pattern. -/
def cLabel : RE := .cls (fun c => c.isAlphanum || c = '-')

/-- TLD alternation of the URL pattern, in source order. -/
def urlTlds : List String :=
  ["com", "org", "net", "edu", "gov", "pl", "dev", "io", "co", "uk", "de", "fr",
   "it", "es", "ru", "cn", "jp", "br", "au", "in", "nl", "se", "no", "fi", "dk",
   "cz", "sk", "eu", "info", "biz"]

/-- `url_rule` (IGNORECASE): scheme option
`\b(?:https?://)(?:[A-Za-z0-9-]+\.)*[A-Za-z0-9-]+\.[A-Za-z]{2,}(?:[/:][^\s\)]*)?`
or schemeless option
`(?<![A-Za-z0-9_])(?:www\.|[A-Za-z0-9-]+\.)[A-Za-z0-9-]+\.(?:com|…|biz)\b(?![A-Za-z0-9_\(])`. -/
def urlRE : RE :=
  .alt
    (seqL [.wb, litCI "http", optR (litCI "s"), litS "://",
           .star (.seq (plusR cLabel) (litS ".")), plusR cLabel, litS ".",
           atLeast 2 cA,
           optR (.seq (.cls (cSet "/:")) (.star (.cls (fun c => !(isSpaceChar c || c = ')')))))])
    (seqL [.nlb isWordChar,
           .alt (litCI "www.") (.seq (plusR cLabel) (litS ".")),
           plusR cLabel, litS ".", altL (urlTlds.map litCI), .wb,
           .nla (.cls (fun c => c.isAlphanum || c = '_' || c = '('))])

/-- `ip_rule` (no IGNORECASE):
`\b(?P<addr>localhost|(?:\d{1,3}\.){3}\d{1,3}|(?:[A-Fa-f0-9]{1,4}:){7}[A-Fa-f0-9]{1,4})(?:\:(?P<port>\d{1,5}))?\b`. -/
def ipRE : RE :=
  seqL [.wb,
        .grp 1 (altL [litS "localhost",
                      .seq (.rep 3 3 (.seq (.rep 1 3 cD) (litS "."))) (.rep 1 3 cD),
                      .seq (.rep 7 7 (.seq (.rep 1 4 (.cls cHex)) (litS ":")))
                           (.rep 1 4 (.cls cHex))]),
        optR (.seq (litS ":") (.grp 2 (.rep 1 5 cD))), .wb]

/-- Masked-IBAN group class `[0-9X]` under IGNORECASE. -/
def cXDigit : RE := .cls (fun c => c.isDigit || c = 'X' || c = 'x')

/-- `bank_account_rule` (IGNORECASE):
`\b(?:(?:[A-Z]{2}|XX))?\s*(?:\d{2}|XX)(?:\s*(?:[0-9X]{4})){6}\b`. -/
def bankAccountRE : RE :=
  seqL [.wb, optR (.alt (.rep 2 2 cA) (litCI "XX")), .star cS,
        .alt (.rep 2 2 cD) (litCI "XX"),
        .rep 6 6 (.seq (.star cS) (.rep 4 4 cXDigit)), .wb]

/-- `jwt_rule`: `\b[A-Za-z0-9\-_]+\.[A-Za-z0-9\-_]+\.[A-Za-z0-9\-_]+\b`. -/
def jwtRE : RE :=
  seqL [.wb, plusR (.cls cB64), litS ".", plusR (.cls cB64), litS ".",
        plusR (.cls cB64), .wb]

/-- `invoice_number_rule` (IGNORECASE):
`\b(?:FV|INV|INVOICE)[/\-]\d{4}[/\-]\d{3,6}\b`. -/
def invoiceRE : RE :=
  seqL [.wb, altL [litCI "FV", litCI "INV", litCI "INVOICE"], .cls (cSet "/-"),
        .rep 4 4 cD, .cls (cSet "/-"), .rep 3 6 cD, .wb]

/-- `order_number_rule` (IGNORECASE): `\b(?:ORD|ORDER)[\-_]?\d{3,10}\b`. -/
def orderRE : RE :=
  seqL [.wb, .alt (litCI "ORD") (litCI "ORDER"), optR (.cls (cSet "-_")),
        .rep 3 10 cD, .wb]

/-- `transaction_ref_rule` (IGNORECASE):
`\b[A-Z]{2,5}[-_]\d{4,8}[-_]\d{3,6}\b`. -/
def transRefRE : RE :=
  seqL [.wb, .rep 2 5 cA, .cls (cSet "-_"), .rep 4 8 cD, .cls (cSet "-_"),
        .rep 3 6 cD, .wb]

/-- Polish month alternation of `date_word_rule`, in source order. -/
def plMonths : List String :=
  ["styczeń", "stycznia", "sty", "luty", "lutego", "lut", "marzec", "marca",
   "mar", "kwiecień", "kwietnia", "kwi", "maj", "maja", "czerwiec", "czerwca",
   "cze", "lipiec", "lipca", "lip", "sierpień", "sierpnia", "sie", "wrzesień",
   "września", "wrz", "październik", "października", "paź", "listopad",
   "listopada", "lis", "grudzień", "grudnia", "gru"]

/-- English month alternation of `date_word_rule`, in source order. -/
def enMonths : List String :=
  ["January", "Jan", "February", "Feb", "March", "Mar", "April", "Apr", "May",
   "June", "Jun", "July", "Jul", "August", "Aug", "September", "Sep", "October",
   "Oct", "November", "Nov", "December", "Dec"]

/-- `date_word_rule` (IGNORECASE): `(?<!\w)` then the four day/month/year
alternatives (Polish DMY, Polish YMD, English MDY with optional ordinal
suffix and optional comma, English DMY), then `(?!\w)`. -/
def dateWordRE : RE :=
  seqL [.nlb isWordChar,
        altL [seqL [.rep 1 2 cD, plusR cS, altL (plMonths.map litCI), plusR cS,
                    .rep 4 4 cD],
              seqL [.rep 4 4 cD, plusR cS, altL (plMonths.map litCI), plusR cS,
                    .rep 1 2 cD],
              seqL [altL (enMonths.map litCI), plusR cS, .rep 1 2 cD,
                    optR (altL [litCI "st", litCI "nd", litCI "rd", litCI "th"]),
                    .alt (.seq (litS ",") (.star cS)) (plusR cS), .rep 4 4 cD],
              seqL [.rep 1 2 cD,
                    optR (altL [litCI "st", litCI "nd", litCI "rd", litCI "th"]),
                    plusR cS, altL (enMonths.map litCI), plusR cS, .rep 4 4 cD]],
        .nla (.cls isWordChar)]

/-- Separator `\s*[-./]\s*` of `date_number_rule`. -/
def dnSep : RE := seqL [.star cS, .cls (cSet "-./"), .star cS]

/-- Month component `0[1-9]|1[0-2]` of `date_number_rule`. -/
def dnMonth : RE :=
  .alt (.seq (litS "0") (.cls (fun c => '1' ≤ c && c ≤ '9')))
       (.seq (litS "1") (.cls (cSet "012")))

/-- Day component `0[1-9]|[12]\d|3[01]` of `date_number_rule`. -/
def dnDay : RE :=
  altL [.seq (litS "0") (.cls (fun c => '1' ≤ c && c ≤ '9')),
        .seq (.cls (cSet "12")) cD,
        .seq (litS "3") (.cls (cSet "01"))]

/-- `date_number_rule` (no flags):
`(?<!\d)(?:\d{4}sep MM sep DD|DD sep MM sep \d{4})(?!\d)`. -/
def dateNumberRE : RE :=
  seqL [.nlb Char.isDigit,
        .alt (seqL [.rep 4 4 cD, dnSep, dnMonth, dnSep, dnDay])
             (seqL [dnDay, dnSep, dnMonth, dnSep, .rep 4 4 cD]),
        .nla cD]

/-- Currency symbol class `[$€£¥₽₹]` of `money_rule`. -/
def moneySym : RE := .cls (cSet "$€£¥₽₹")

/-- ISO currency codes of `money_rule`, in source order. -/
def moneyCodes : RE :=
  altL (["USD", "EUR", "GBP", "PLN", "CHF", "CAD", "AUD", "JPY", "NOK", "SEK",
         "DKK", "CZK", "HUF", "RUB", "CNY", "INR"].map litCI)

/-- Polish currency words of `money_rule`, in source order. -/
def moneyWords : RE :=
  altL (["zł", "zł.", "złoty", "złote", "złotych", "złotymi", "dolar", "dolara",
         "dolarów", "dolary", "dolarami", "euro", "eur.", "eura", "eurów",
         "eurem", "funt", "funty", "funtów", "funtami", "rubel", "rubla",
         "rubli", "rublami"].map litCI)

/-- Magnitude words `tys.|mln|mld` of `money_rule`. -/
def moneyMag : RE := altL [litCI "tys.", litCI "mln", litCI "mld"]

/-- Numeric amount of `money_rule`:
`\d{1,3}(?:[ ,. ]\d{3})*(?:[.,]\d{1,2})?`. -/
def moneyNumber : RE :=
  seqL [.rep 1 3 cD, .star (.seq (.cls (cSet " ,. ")) (.rep 3 3 cD)),
        optR (.seq (.cls (cSet ".,")) (.rep 1 2 cD))]

/-- `money_rule` (IGNORECASE): `(?<!\w)(?:[_*]+)?` then either
`(prefix)\s*?(amount)(\s*magnitude)?(\s*suffix)?` or
`(amount)(\s*magnitude)?\s*(suffix)`, then `(?:[_*]+)?(?!\w)`; the prefix is a
symbol or code, the suffix a symbol, code or Polish word.  `\s*?` is lazy. -/
def moneyRE : RE :=
  seqL [.nlb isWordChar, optR (plusR cMark),
        .alt
          (seqL [.alt moneySym moneyCodes, .starL (.cls isSpaceChar), moneyNumber,
                 optR (.seq (.star cS) moneyMag),
                 optR (.seq (.star cS) (altL [moneySym, moneyCodes, moneyWords]))])
          (seqL [moneyNumber, optR (.seq (.star cS) moneyMag), .star cS,
                 altL [moneySym, moneyCodes, moneyWords]]),
        optR (plusR cMark), .nla (.cls isWordChar)]

/-- `postal_code_rule` (IGNORECASE):
`(?<!\d)(?:[_*]+)?(?P<code>\d{2}-?\d{3})(?:[_*]+)?(?!\d)`. -/
def postalRE : RE :=
  seqL [.nlb Char.isDigit, optR (plusR cMark),
        .grp 1 (seqL [.rep 2 2 cD, optR (litS "-"), .rep 3 3 cD]),
        optR (plusR cMark), .nla cD]

/-- `health_id_rule`: `\b\d{8}/\d{3}\b`. -/
def healthIdRE : RE := seqL [.wb, .rep 8 8 cD, litS "/", .rep 3 3 cD, .wb]

/-- `car_plate_rule` (IGNORECASE): `\b[A-Z]{2,3}\s?\d{2,5}[A-Z]{0,2}\b`. -/
def carPlateRE : RE :=
  seqL [.wb, .rep 2 3 cA, optR cS, .rep 2 5 cD, .rep 0 2 cA, .wb]

/-- `sim_card_rule`: `\b(?:\d{4}\s?){4}\d{3}\b`. -/
def simCardRE : RE :=
  seqL [.wb, .rep 4 4 (.seq (.rep 4 4 cD) (optR cS)), .rep 3 3 cD, .wb]

/-- `ssl_cert_rule`: `\b[0-9A-Fa-f]{16,40}\b`. -/
def sslCertRE : RE := seqL [.wb, .rep 16 40 (.cls cHex), .wb]

/-- Street-type alternation of `beta/street_rule`, in source order:
`ul\.?|ulica|al\.?|aleja|pl\.?|plac|skwer|os\.?|osiedle|rondo|droga|dr\.?|trakt|t\.?|ścieżka|ś\.?`. -/
def streetType : RE :=
  altL [.seq (litCI "ul") (optR (litS ".")), litCI "ulica",
        .seq (litCI "al") (optR (litS ".")), litCI "aleja",
        .seq (litCI "pl") (optR (litS ".")), litCI "plac", litCI "skwer",
        .seq (litCI "os") (optR (litS ".")), litCI "osiedle", litCI "rondo",
        litCI "droga", .seq (litCI "dr") (optR (litS ".")), litCI "trakt",
        .seq (litCI "t") (optR (litS ".")), litCI "ścieżka",
        .seq (litCI "ś") (optR (litS "."))]

/-- First letter of a street-name word, `[A-Za-zĄąĆćĘęŁłŃńÓóŚśŹźŻż]`. -/
def cPLLetter : RE := .cls (fun c => c.isAlpha || cSet "ĄąĆćĘęŁłŃńÓóŚśŹźŻż" c)

/-- Remaining street-name characters, `[A-Za-z0-9ĄąĆćĘęŁłŃńÓóŚśŹźŻż-]`. -/
def cPLWord : RE := .cls (fun c => c.isAlphanum || cSet "ĄąĆćĘęŁłŃńÓóŚśŹźŻż-" c)

/-- `beta/street_rule` (IGNORECASE):
`\b(type)(?:\s+[letter][word]*){1,5}(?:\s+\d+[A-Za-z]?(?:\/\d+)?)?\b`. -/
def streetRE : RE :=
  seqL [.wb, streetType,
        .rep 1 5 (seqL [plusR cS, cPLLetter, .star cPLWord]),
        optR (seqL [plusR cS, plusR cD, optR cA, optR (.seq (litS "/") (plusR cD))]),
        .wb]

/-- `phone_rule`:
`\b(?:(?:\d{3}[\s-]?\d{3}[\s-]?\d{3})|(?:\d{2}[\s-]?\d{3}[\s-]?\d{2}[\s-]?\d{2}))\b`. -/
def phoneRE : RE :=
  seqL [.wb,
        .alt (seqL [.rep 3 3 cD, optR (.cls (fun c => isSpaceChar c || c = '-')),
                    .rep 3 3 cD, optR (.cls (fun c => isSpaceChar c || c = '-')),
                    .rep 3 3 cD])
             (seqL [.rep 2 2 cD, optR (.cls (fun c => isSpaceChar c || c = '-')),
                    .rep 3 3 cD, optR (.cls (fun c => isSpaceChar c || c = '-')),
                    .rep 2 2 cD, optR (.cls (fun c => isSpaceChar c || c = '-')),
                    .rep 2 2 cD]),
        .wb]

/-- `social_id_rule` (IGNORECASE): `\bfbid\d{8,}\b`. -/
def socialIdRE : RE := seqL [.wb, litCI "fbid", atLeast 8 cD, .wb]

/-! ### Rule objects and the masker engine (`core/masker.py`) -/

/-- Python `str.replace` on character lists (all non-overlapping occurrences,
left to right); used by `PeselTaggedRule.apply`. -/
def replaceAllGo : Nat → List Char → List Char → List Char → List Char
  | 0, s, _, _ => s
  | fuel+1, s, pat, rep =>
    if pat.isPrefixOf s && !pat.isEmpty then
      rep ++ replaceAllGo fuel (s.drop pat.length) pat rep
    else
      match s with
      | [] => []
      | c :: rest => c :: replaceAllGo fuel rest pat rep

/-- Python `str.replace s pat rep`. -/
def replaceAll (s pat rep : List Char) : List Char :=
  replaceAllGo (s.length + 1) s pat rep

/-- One detector rule: a class name identifying it and its
`apply(text) -> text` transform (interface `MaskerRuleI`). -/
structure MaskerRule where
  name : String
  apply : String → String

/-- Build a rule whose `apply` is `pattern.sub(repl, text)`. -/
def mkRule (name : String) (re : RE) (repl : List Char → Caps → List Char) :
    MaskerRule :=
  ⟨name, fun s => String.mk (subst re repl s.data)⟩

/-- `CreditCardRule`: replace a match iff `is_valid_credit_card`. -/
def CreditCardRule : MaskerRule :=
  mkRule "CreditCardRule" ccRE
    (fun g0 _ => if is_valid_credit_card (String.mk g0) then ph "CREDIT_CARD" else g0)

/-- `VinRule`: replace a match iff `is_valid_vin`. -/
def VinRule : MaskerRule :=
  mkRule "VinRule" vinRE
    (fun g0 _ => if is_valid_vin (String.mk g0) then ph "VIN" else g0)

/-- `PeselTaggedRule`: on a valid PESEL keep the label and substitute the
digits inside the whole match (`m.group(0).replace(pesel, placeholder)`);
otherwise return the whole match. -/
def PeselTaggedRule : MaskerRule :=
  mkRule "PeselTaggedRule" peselTaggedRE
    (fun g0 caps =>
      match capGet caps 1 with
      | some p =>
        if is_valid_pesel (String.mk p) then replaceAll g0 p (ph "PESEL_TAGGED") else g0
      | none => g0)

/-- `PeselRule`: on a valid PESEL substitute the placeholder; otherwise the
replacer returns the captured digit group (not the whole match). -/
def PeselRule : MaskerRule :=
  mkRule "PeselRule" peselRE
    (fun g0 caps =>
      match capGet caps 1 with
      | some p => if is_valid_pesel (String.mk p) then ph "PESEL" else p
      | none => g0)

/-- `NipRule`: placeholder iff `_is_valid_nip` on the digit group, else the
whole match. -/
def NipRule : MaskerRule :=
  mkRule "NipRule" nipRE
    (fun g0 caps =>
      match capGet caps 1 with
      | some d => if _is_valid_nip (String.mk d) then ph "NIP" else g0
      | none => g0)

/-- `KrsRule`: placeholder iff `is_valid_krs` on the group, else the group. -/
def KrsRule : MaskerRule :=
  mkRule "KrsRule" krsRE
    (fun g0 caps =>
      match capGet caps 1 with
      | some d => if is_valid_krs (String.mk d) then ph "KRS" else d
      | none => g0)

/-- `RegonRule`: placeholder iff `is_valid_regon` on the group, else the
group. -/
def RegonRule : MaskerRule :=
  mkRule "RegonRule" regonRE
    (fun g0 caps =>
      match capGet caps 1 with
      | some d => if is_valid_regon (String.mk d) then ph "REGON" else d
      | none => g0)

/-- `NrbRule`: placeholder iff `is_valid_nrb` on the whole match. -/
def NrbRule : MaskerRule :=
  mkRule "NrbRule" nrbRE
    (fun g0 _ => if is_valid_nrb (String.mk g0) then ph "NRB" else g0)

/-- `MacAddressRule`: placeholder iff `is_valid_mac`. -/
def MacAddressRule : MaskerRule :=
  mkRule "MacAddressRule" macRE
    (fun g0 _ => if is_valid_mac (String.mk g0) then ph "MAC_ADDRESS" else g0)

/-- `PassportRule`: unconditional replacement. -/
def PassportRule : MaskerRule :=
  mkRule "PassportRule" passportRE (fun _ _ => ph "PASSPORT")

/-- `IdCardRule`: unconditional replacement. -/
def IdCardRule : MaskerRule :=
  mkRule "IdCardRule" idCardRE (fun _ _ => ph "ID_CARD")

/-- `SsnRule`: placeholder iff `is_valid_ssn`. -/
def SsnRule : MaskerRule :=
  mkRule "SsnRule" ssnRE
    (fun g0 _ => if is_valid_ssn (String.mk g0) then ph "SSN" else g0)

/-- `PhoneInternationalRule`: unconditional replacement. -/
def PhoneInternationalRule : MaskerRule :=
  mkRule "PhoneInternationalRule" phoneIntlRE (fun _ _ => ph "PHONE_INTERNATIONAL")

/-- `EmailRule`: unconditional replacement. -/
def EmailRule : MaskerRule :=
  mkRule "EmailRule" emailRE (fun _ _ => ph "EMAIL")

/-- `UrlRule`: unconditional replacement. -/
def UrlRule : MaskerRule :=
  mkRule "UrlRule" urlRE (fun _ _ => ph "URL")

/-- `IpRule`: the address becomes `{{IP}}` and, when a port was captured,
`:{{PORT}}` is appended. -/
def IpRule : MaskerRule :=
  mkRule "IpRule" ipRE
    (fun _ caps =>
      match capGet caps 2 with
      | some _ => ph "IP" ++ ':' :: ph "PORT"
      | none => ph "IP")

/-- `BankAccountRule`: unconditional replacement. -/
def BankAccountRule : MaskerRule :=
  mkRule "BankAccountRule" bankAccountRE (fun _ _ => ph "BANK_ACCOUNT")

/-- `JwtRule`: placeholder iff `is_possible_jwt`. -/
def JwtRule : MaskerRule :=
  mkRule "JwtRule" jwtRE
    (fun g0 _ => if is_possible_jwt (String.mk g0) then ph "JWT" else g0)

/-- `InvoiceNumberRule`: unconditional replacement. -/
def InvoiceNumberRule : MaskerRule :=
  mkRule "InvoiceNumberRule" invoiceRE (fun _ _ => ph "INVOICE_NUMBER")

/-- `OrderNumberRule`: unconditional replacement. -/
def OrderNumberRule : MaskerRule :=
  mkRule "OrderNumberRule" orderRE (fun _ _ => ph "ORDER_NUMBER")

/-- `TransactionRefRule`: placeholder iff `is_possible_transaction_ref`. -/
def TransactionRefRule : MaskerRule :=
  mkRule "TransactionRefRule" transRefRE
    (fun g0 _ => if is_possible_transaction_ref (String.mk g0) then ph "TRANSACTION_REF" else g0)

/-- `DateWordRule`: unconditional replacement. -/
def DateWordRule : MaskerRule :=
  mkRule "DateWordRule" dateWordRE (fun _ _ => ph "DATE_STR")

/-- `DateNumberRule`: unconditional replacement. -/
def DateNumberRule : MaskerRule :=
  mkRule "DateNumberRule" dateNumberRE (fun _ _ => ph "DATE_NUM")

/-- `MoneyRule`: unconditional replacement. -/
def MoneyRule : MaskerRule :=
  mkRule "MoneyRule" moneyRE (fun _ _ => ph "MONEY")

/-- `PostalCodeRule`: unconditional replacement. -/
def PostalCodeRule : MaskerRule :=
  mkRule "PostalCodeRule" postalRE (fun _ _ => ph "POSTAL_CODE")

/-- `HealthIdRule`: unconditional replacement. -/
def HealthIdRule : MaskerRule :=
  mkRule "HealthIdRule" healthIdRE (fun _ _ => ph "HEALTH_CODE")

/-- `CarPlateRule`: placeholder iff `is_valid_car_plate`. -/
def CarPlateRule : MaskerRule :=
  mkRule "CarPlateRule" carPlateRE
    (fun g0 _ => if is_valid_car_plate (String.mk g0) then ph "CAR_PLATE" else g0)

/-- `SimCardRule`: placeholder iff `is_valid_sim_iccid`. -/
def SimCardRule : MaskerRule :=
  mkRule "SimCardRule" simCardRE
    (fun g0 _ => if is_valid_sim_iccid (String.mk g0) then ph "SIM_CARD" else g0)

/-- `SslCertRule`: placeholder iff `is_valid_ssl_serial`. -/
def SslCertRule : MaskerRule :=
  mkRule "SslCertRule" sslCertRE
    (fun g0 _ => if is_valid_ssl_serial (String.mk g0) then ph "SSL_CERT" else g0)

/-- `StreetNameRule`: unconditional replacement. -/
def StreetNameRule : MaskerRule :=
  mkRule "StreetNameRule" streetRE (fun _ _ => ph "STREET")

/-- `PhoneRule`: unconditional replacement. -/
def PhoneRule : MaskerRule :=
  mkRule "PhoneRule" phoneRE (fun _ _ => ph "PHONE")

/-- `SocialIdRule`: unconditional replacement. -/
def SocialIdRule : MaskerRule :=
  mkRule "SocialIdRule" socialIdRE (fun _ _ => ph "SOCIAL_ID")

/-- Default ordered rule set `FastMasker.ALL_MASKER_RULES` (source order).
Modelled from the spec for the final entry: `SimplePersonalDataRule` is
appended only when the feature flag `USE_BETA_FEATURES` (defined in the
external `llm_router_lib` package, not part of this repository) is enabled;
the spec describes it as an optional surname rule behind an explicit feature
flag, so the default set modelled here excludes it, and the trailing `None`
is filtered out exactly as in the source list comprehension. -/
def ALL_MASKER_RULES : List MaskerRule :=
  [CreditCardRule, VinRule, PeselTaggedRule, PeselRule, NipRule, KrsRule,
   RegonRule, NrbRule, MacAddressRule, PassportRule, IdCardRule, SsnRule,
   PhoneInternationalRule, EmailRule, UrlRule, IpRule, BankAccountRule,
   JwtRule, InvoiceNumberRule, OrderNumberRule, TransactionRefRule,
   DateWordRule, DateNumberRule, MoneyRule, PostalCodeRule, HealthIdRule,
   CarPlateRule, SimCardRule, SslCertRule, StreetNameRule, PhoneRule,
   SocialIdRule]

/-- `FastMasker._mask_text` with an explicit rule list: each rule is applied
in order, feeding its output to the next. -/
def maskTextWith (rules : List MaskerRule) (text : String) : String :=
  rules.foldl (fun t r => r.apply t) text

/-- `FastMasker._mask_text` with the default rule set. -/
def mask_text (text : String) : String := maskTextWith ALL_MASKER_RULES text

/-- `FastMasker.__init__`: `self.rules = rules or self.ALL_MASKER_RULES` —
`None` and the empty list are both falsy, so either selects the default
set. -/
def fastMaskerInit (rules : Option (List MaskerRule)) : List MaskerRule :=
  match rules with
  | none => ALL_MASKER_RULES
  | some rs => if rs.isEmpty then ALL_MASKER_RULES else rs

/-! ### Exception semantics of the `_mask_text` loop

`FastMasker._mask_text` is the bare loop
`for rule in self.rules: text = rule.apply(text)` with no exception handler.
To reason about a detector that raises, rules are given the type
`String → Except String String`; the loop below is the direct translation of
the source loop under Python exception propagation: an error in one rule
aborts the whole fold. -/

/-- The source `_mask_text` loop over possibly-raising rules: the first
exception propagates and the remaining rules never run. -/
def maskTextLoopE (rules : List (String → Except String String)) (text : String) :
    Except String String :=
  match rules with
  | [] => .ok text
  | r :: rs =>
    match r text with
    | .ok t2 => maskTextLoopE rs t2
    | .error e => .error e

/-- Modelled from the spec: the fault-isolation behaviour §7 mandates for the
engine ("catch and skip a misbehaving detector, continuing with the next") —
this catch-per-rule loop is what the spec describes and is absent from
`FastMasker._mask_text` in the source. -/
def maskTextIsolatedE (rules : List (String → Except String String)) (text : String) :
    Except String String :=
  match rules with
  | [] => .ok text
  | r :: rs =>
    match r text with
    | .ok t2 => maskTextIsolatedE rs t2
    | .error _ => maskTextIsolatedE rs text

/-! ### Payload traversal (`payload_interface.py`)

`MaskerPayloadTraveler.mask_payload` dispatches on the runtime type of the
payload.  The payload universe is modelled as a mutual inductive family so
that every traversal below is structural: strings, numbers, booleans, `None`,
opaque objects, ordered dictionaries (association lists with Python `dict`
update semantics) and lists.  The text masker `self._mask_text` is abstract
in the class, so the traversal is parametrised by `mt : String → String`. -/

mutual

/-- Payload values: the runtime types `mask_payload` distinguishes. -/
inductive Payload where
  | str (s : String)
  | num (n : Int)
  | bool (b : Bool)
  | null
  | obj (tag : Nat)
  | dict (entries : PDict)
  | arr (items : PList)

/-- A Python list of payloads. -/
inductive PList where
  | nil
  | cons (hd : Payload) (tl : PList)

/-- A Python dict of payloads: insertion-ordered key/value pairs. -/
inductive PDict where
  | nil
  | cons (key val : Payload) (tl : PDict)

end

mutual

/-- Structural equality of payloads (Python `==` on these value types). -/
def pEq : Payload → Payload → Bool
  | .str a, .str b => a = b
  | .num a, .num b => a = b
  | .bool a, .bool b => a = b
  | .null, .null => true
  | .obj a, .obj b => a = b
  | .dict a, .dict b => pDictEq a b
  | .arr a, .arr b => pListEq a b
  | _, _ => false

/-- Structural equality of payload lists. -/
def pListEq : PList → PList → Bool
  | .nil, .nil => true
  | .cons a as, .cons b bs => pEq a b && pListEq as bs
  | _, _ => false

/-- Structural equality of payload dicts. -/
def pDictEq : PDict → PDict → Bool
  | .nil, .nil => true
  | .cons k1 v1 as, .cons k2 v2 bs => pEq k1 k2 && pEq v1 v2 && pDictEq as bs
  | _, _ => false

end

/-- Python `dict` assignment `d[k] = v`: if `k` is already a key, its first
entry's value is replaced in place (insertion position kept); otherwise the
pair is appended. -/
def dictInsert : PDict → Payload → Payload → PDict
  | .nil, k, v => .cons k v .nil
  | .cons k0 v0 tl, k, v =>
    if pEq k0 k then .cons k0 v tl else .cons k0 v0 (dictInsert tl k v)

mutual

/-- `MaskerPayloadTraveler.mask_payload`: strings go to `_mask_text`, dicts to
`_mask_dict`, lists to `_mask_list`, everything else passes through. -/
def mask_payload (mt : String → String) : Payload → Payload
  | .str s => .str (mt s)
  | .dict m => .dict (_mask_dict mt m .nil)
  | .arr l => .arr (_mask_list mt l)
  | p => p

/-- `MaskerPayloadTraveler._mask_list`: mask every element recursively,
preserving order. -/
def _mask_list (mt : String → String) : PList → PList
  | .nil => .nil
  | .cons h tl => .cons (mask_payload mt h) (_mask_list mt tl)

/-- `MaskerPayloadTraveler._mask_dict` loop with its accumulator `_p`:
`for k, v in dict_payload.items(): _p[mask(k)] = mask(v)`. -/
def _mask_dict (mt : String → String) : PDict → PDict → PDict
  | .nil, acc => acc
  | .cons k v tl, acc =>
    _mask_dict mt tl (dictInsert acc (mask_payload mt k) (mask_payload mt v))

end

/-- Entries of a payload dict as a Lean list. -/
def PDict.toList : PDict → List (Payload × Payload)
  | .nil => []
  | .cons k v tl => (k, v) :: PDict.toList tl

/-- Elements of a payload list as a Lean list. -/
def PList.toList : PList → List Payload
  | .nil => []
  | .cons h tl => h :: PList.toList tl

/-- Number of entries of a payload dict. -/
def PDict.size (d : PDict) : Nat := d.toList.length

/-- Python `dict` lookup: value of the first (unique) entry with the key. -/
def dictLookup : PDict → Payload → Option Payload
  | .nil, _ => none
  | .cons k0 v0 tl, k => if pEq k0 k then some v0 else dictLookup tl k

/-! ### Spec-side reference definitions

These definitions follow the specification's wording (not the source) and
exist only to be compared against the source-derived definitions above. -/

/-- Modelled from the spec (§4.1 VIN): the ISO 3779 transliteration table
`{A:1,B:2,…,H:8,J:1,K:2,L:3,M:4,N:5,P:7,R:9,S:2,T:3,U:4,V:5,W:6,X:7,Y:8,Z:9}`
with digits mapping to themselves. -/
def specVinTranslation (c : Char) : Nat :=
  match c with
  | 'A' => 1 | 'B' => 2 | 'C' => 3 | 'D' => 4 | 'E' => 5 | 'F' => 6 | 'G' => 7
  | 'H' => 8 | 'J' => 1 | 'K' => 2 | 'L' => 3 | 'M' => 4 | 'N' => 5 | 'P' => 7
  | 'R' => 9 | 'S' => 2 | 'T' => 3 | 'U' => 4 | 'V' => 5 | 'W' => 6 | 'X' => 7
  | 'Y' => 8 | 'Z' => 9
  | c => digitVal c

/-- Modelled from the spec (§4.1 VIN): weighted sum with the spec's
transliteration table, remainder mod 11, check character `X` for 10, compared
at 0-indexed position 8. -/
def spec_vin_valid (vin : String) : Bool :=
  let v := vin.data.map Char.toUpper
  if !(v.length = 17 && v.all vinClass) then false
  else
    let total := (List.zipWith (fun ch w => specVinTranslation ch * w) v vinWeights).sum
    let remainder := total % 11
    let check : Char := if remainder = 10 then 'X' else Char.ofNat (48 + remainder)
    v.getD 8 ' ' = check

/-- Luhn transform of a digit at reversed position `i`, as the spec words it:
"double every second digit from the right, subtract 9 from doubled values
greater than 9". -/
def luhnSpecStep (i d : Nat) : Nat :=
  if i % 2 = 1 then (if d * 2 > 9 then d * 2 - 9 else d * 2) else d

/-- Spec-side Luhn sum: reverse the digits, transform, sum. -/
def luhn_spec_sum (ds : List Nat) : Nat :=
  (ds.reverse.mapIdx luhnSpecStep).sum

/-- Spec-side PESEL check: weighted sum of the first ten digits with weights
`[1,3,7,9,1,3,7,9,1,3]`, checksum `(10 - (sum mod 10)) mod 10`, compared with
the eleventh digit. -/
def spec_pesel_check (ds : List Char) : Bool :=
  (10 - (List.zipWith (fun w d => w * digitVal d) [1, 3, 7, 9, 1, 3, 7, 9, 1, 3]
    (ds.take 10)).sum % 10) % 10 = digitVal (ds.getD 10 '0')

/-- Substring test used to state that an output never contains a token. -/
def hasInfix (tok : List Char) : List Char → Bool
  | [] => tok.isEmpty
  | c :: rest => tok.isPrefixOf (c :: rest) || hasInfix tok rest

/-! ### Digit-consumption analysis

For the idempotence/PESEL theorems the engine is analysed on inputs that are
entirely decimal digits.  `lensD re` computes the set of lengths a match of
`re` can consume from such an input (`none` when unbounded); a pattern whose
lengths all exceed the input length cannot match anywhere in it. -/

/-- The ten decimal digit characters. -/
def digitChars : List Char := "0123456789".data

/-- Whether a character class accepts some decimal digit. -/
def clsDigitCompat (f : Char → Bool) : Bool := digitChars.any f

/-- Union of two length sets. -/
def unionL (a b : List Nat) : List Nat := (a ++ b).dedup

/-- Pairwise sums of two length sets. -/
def addL (a b : List Nat) : List Nat := (a.flatMap (fun x => b.map (x + ·))).dedup

/-- Sum of two optional length sets; the empty set (no match possible)
absorbs, and otherwise an unbounded side makes the sum unbounded. -/
def addSets : Option (List Nat) → Option (List Nat) → Option (List Nat)
  | some [], _ => some []
  | _, some [] => some []
  | some a, some b => some (addL a b)
  | _, _ => none

/-- Union of two optional length sets. -/
def unionSets : Option (List Nat) → Option (List Nat) → Option (List Nat)
  | some a, some b => some (unionL a b)
  | _, _ => none

/-- Length set of `r{lo,hi}` given the length set of `r`, mirroring the
matcher's unfolding of `rep`. -/
def repLens : Nat → Nat → Option (List Nat) → Option (List Nat)
  | 0, 0, _ => some [0]
  | 0, hi+1, d => unionSets (addSets d (repLens 0 hi d)) (some [0])
  | _+1, 0, _ => some []
  | lo+1, hi+1, d => addSets d (repLens lo hi d)

/-- Possible digit-only consumption lengths of a pattern. -/
def lensD : RE → Option (List Nat)
  | .eps => some [0]
  | .cls f => if clsDigitCompat f then some [1] else some []
  | .seq a b => addSets (lensD a) (lensD b)
  | .alt a b => unionSets (lensD a) (lensD b)
  | .rep lo hi r => repLens lo hi (lensD r)
  | .star r => match lensD r with | some [] => some [0] | _ => none
  | .starL r => match lensD r with | some [] => some [0] | _ => none
  | .wb => some [0]
  | .nla _ => some [0]
  | .nlb _ => some [0]
  | .grp _ r => lensD r

/-- Decidable check that every digit-only consumption length of `re` exceeds
`n`. -/
def lensAllGt (re : RE) (n : Nat) : Bool :=
  match lensD re with
  | some L => L.all (fun l => n < l)
  | none => false

/-! ### Helpers for the dictionary-collision analysis -/

/-- Keys of a payload dict, in order. -/
def keysOf : PDict → List Payload
  | .nil => []
  | .cons k _ tl => k :: keysOf tl

/-- Add a key to a key list unless an equal key is already present
(the effect of `dictInsert` on the key list). -/
def insKey (ks : List Payload) (k : Payload) : List Payload :=
  if ks.any (fun k0 => pEq k0 k) then ks else ks ++ [k]

/-- Value of the last entry of an association list whose key equals `k`. -/
def lastVal (ps : List (Payload × Payload)) (k : Payload) : Option Payload :=
  match ps with
  | [] => none
  | (k0, v0) :: rest =>
    match lastVal rest k with
    | some w => some w
    | none => if pEq k0 k then some v0 else none

/-- Entries of a dict after masking keys and values, in iteration order. -/
def maskedEntries (mt : String → String) (m : PDict) : List (Payload × Payload) :=
  m.toList.map (fun kv => (mask_payload mt kv.1, mask_payload mt kv.2))

/-- Fold of `dictInsert` over a list of pairs, the shape of `_mask_dict`. -/
def dictInsertAll (acc : PDict) (ps : List (Payload × Payload)) : PDict :=
  ps.foldl (fun d kv => dictInsert d kv.1 kv.2) acc


/-- The character preceding the rest of the input after consuming `ds`:
the last consumed character, or the previous one when nothing was consumed. -/
def prevEnd (prev : Option Char) (ds : List Char) : Option Char :=
  match ds.getLast? with
  | some d => some d
  | none => prev

/-! ## Theorems -/

/-- Characterisation of the substring checker. -/
theorem hasInfix_true_iff (tok s : List Char) :
    hasInfix tok s = true ↔ ∃ pre post, s = pre ++ tok ++ post := by
  induction s with
  | nil =>
    simp only [hasInfix, List.isEmpty_iff]
    constructor
    · rintro rfl; exact ⟨[], [], rfl⟩
    · rintro ⟨pre, post, h⟩
      rcases List.append_eq_nil.mp h.symm with ⟨h1, h2⟩
      exact (List.append_eq_nil.mp h1).2
  | cons c rest ih =>
    simp only [hasInfix, Bool.or_eq_true, ih]
    constructor
    · rintro (hp | ⟨pre, post, rfl⟩)
      · rcases List.isPrefixOf_iff_prefix.mp hp with ⟨t, ht⟩
        exact ⟨[], t, by simp [← ht]⟩
      · exact ⟨c :: pre, post, rfl⟩
    · rintro ⟨pre, post, h⟩
      cases pre with
      | nil =>
        left
        exact List.isPrefixOf_iff_prefix.mpr ⟨post, by simpa using h.symm⟩
      | cons p ps =>
        right
        rcases List.cons_eq_cons.mp h with ⟨rfl, h2⟩
        exact ⟨ps, post, h2⟩

/-- C1.  The spec's VIN claim fails on the code: the source transliteration
table maps letters to their position in the 23-letter alphabet
`ABCDEFGHJKLMNPRSTUVWXYZ` (so `J ↦ 9`, …, `Z ↦ 23`) instead of the ISO 3779
table the spec states (`J ↦ 1`, …, `Z ↦ 9`).  On `"J1111111111111111"` the
spec's algorithm accepts (weighted sum 89, remainder 1, check digit `'1'` at
position 8) while the source validator rejects, and the VIN rule therefore
leaves this spec-valid VIN unmasked. -/
theorem claim_C1 :
    is_valid_vin "J1111111111111111" = false ∧
    spec_vin_valid "J1111111111111111" = true ∧
    VinRule.apply "J1111111111111111" = "J1111111111111111" ∧
    vinTranslation 'J' = 9 ∧ specVinTranslation 'J' = 1 :=
  ⟨rfl, rfl, rfl, rfl, rfl⟩

/-- C2 counterexample.  `mask_text` is not idempotent: on
`"a@b.pl44051401359"` the first pass masks only the email (the word character
`l` before the digits blocks the PESEL rule's lookbehind), and the second pass
then masks the now-exposed valid PESEL, changing the output. -/
theorem claim_C2_cex :
    ¬ (mask_text (mask_text "a@b.pl44051401359") = mask_text "a@b.pl44051401359") := by
  have h1 : mask_text "a@b.pl44051401359" = "\x7b\x7bEMAIL\x7d\x7d44051401359" := rfl
  have h2 : mask_text "\x7b\x7bEMAIL\x7d\x7d44051401359"
      = "\x7b\x7bEMAIL\x7d\x7d\x7b\x7bPESEL\x7d\x7d" := rfl
  rw [h1, h2]
  decide

/-- C2 amended.  Applying the default rule set a second time can change the
output of the first: masking a span can delete the word character that blocked
an adjacent detector's lookbehind, so the second pass masks more.  Concretely,
`mask_text "a@b.pl44051401359" = "{{EMAIL}}44051401359"` while a second
application yields `"{{EMAIL}}{{PESEL}}"`. -/
theorem claim_C2 :
    mask_text "a@b.pl44051401359" = "\x7b\x7bEMAIL\x7d\x7d44051401359" ∧
    mask_text "\x7b\x7bEMAIL\x7d\x7d44051401359"
      = "\x7b\x7bEMAIL\x7d\x7d\x7b\x7bPESEL\x7d\x7d" ∧
    ("\x7b\x7bEMAIL\x7d\x7d44051401359" : String)
      ≠ "\x7b\x7bEMAIL\x7d\x7d\x7b\x7bPESEL\x7d\x7d" :=
  ⟨rfl, rfl, by decide⟩

/-- C3.  The source `_mask_text` loop has no exception handler: under
exception semantics a raising detector aborts the fold (the remaining rules
never run), whereas the spec-mandated per-rule fault isolation
(`maskTextIsolatedE`, modelled from the spec) would skip it and continue. -/
theorem claim_C3 :
    maskTextLoopE [fun s => .ok s, fun _ => .error "boom", fun s => .ok (s ++ "!")]
      "hello" = .error "boom" ∧
    maskTextIsolatedE [fun s => .ok s, fun _ => .error "boom", fun s => .ok (s ++ "!")]
      "hello" = .ok "hello!" :=
  ⟨rfl, rfl⟩

/-- C4 counterexample.  With a rejected checksum the PESEL rule does not leave
the whole matched text unchanged: its replacer substitutes only the captured
11-digit group, deleting the matched markdown wrappers `_…_`. -/
theorem claim_C4_cex :
    is_valid_pesel "12345678901" = false ∧
    PeselRule.apply "_12345678901_" ≠ "_12345678901_" := by
  refine ⟨rfl, ?_⟩
  have h : PeselRule.apply "_12345678901_" = "12345678901" := rfl
  rw [h]
  decide

/-- C4 amended.  On a rejected candidate `PeselTaggedRule.apply` returns the
whole match unchanged (the `PESEL:` label is kept), while `PeselRule.apply`
substitutes back only the captured 11-digit group — the input is unchanged
exactly when the match carried no `[_*]` wrappers. -/
theorem claim_C4 :
    PeselTaggedRule.apply "PESEL: 12345678901" = "PESEL: 12345678901" ∧
    PeselRule.apply "_12345678901_" = "12345678901" ∧
    PeselRule.apply "a 12345678901 b" = "a 12345678901 b" :=
  ⟨rfl, rfl, rfl⟩

/-- Accumulated Luhn loop agrees with the spec's mapIdx formulation at any
starting index. -/
theorem luhnTotal_eq (l : List Nat) :
    ∀ i, luhnTotal i l = (l.mapIdx (fun j d => luhnSpecStep (j + i) d)).sum := by
  induction l with
  | nil => intro i; simp [luhnTotal]
  | cons d rest ih =>
    intro i
    rw [show luhnTotal i (d :: rest) = luhnSpecStep i d + luhnTotal (i + 1) rest from rfl,
        List.mapIdx_cons, List.sum_cons, ih (i + 1), Nat.zero_add]
    congr 2
    congr 1
    funext j e
    congr 1
    omega

/-- The source Luhn checksum is the spec's Luhn sum mod 10. -/
theorem luhn_checksum_eq_spec (number : List Char) :
    _luhn_checksum number = luhn_spec_sum (number.map digitVal) % 10 := by
  unfold _luhn_checksum luhn_spec_sum
  rw [← List.map_reverse, luhnTotal_eq]
  simp

/-- C5.  A string that strips (spaces/dashes removed) to a digit string of
length 13–19 passes `is_valid_credit_card` iff the spec's Luhn sum — reverse,
double every second digit from the right, subtract 9 if above 9, sum — is
divisible by 10; and `mask_text` masks the Luhn-valid
`4111 1111 1111 1111` as `{{CREDIT_CARD}}` while returning the checksum-broken
`4111 1111 1111 1112` unchanged. -/
theorem claim_C5 :
    (∀ s : String,
      (stripCardSeps s.data).all Char.isDigit = true →
      13 ≤ (stripCardSeps s.data).length →
      (stripCardSeps s.data).length ≤ 19 →
      (is_valid_credit_card s = true ↔
        luhn_spec_sum ((stripCardSeps s.data).map digitVal) % 10 = 0)) ∧
    mask_text "4111 1111 1111 1111" = "\x7b\x7bCREDIT_CARD\x7d\x7d" ∧
    mask_text "4111 1111 1111 1112" = "4111 1111 1111 1112" := by
  refine ⟨?_, rfl, rfl⟩
  intro s h1 h2 h3
  have hne : (stripCardSeps s.data).isEmpty = false := by
    cases h : stripCardSeps s.data with
    | nil => rw [h] at h2; simp at h2
    | cons a t => simp [List.isEmpty]
  have hdig : pyIsDigit (stripCardSeps s.data) = true := by
    simp [pyIsDigit, hne, h1]
  have hlen : (13 ≤ (stripCardSeps s.data).length
      && (stripCardSeps s.data).length ≤ 19) = true := by
    simp [h2, h3]
  simp only [is_valid_credit_card, hdig, hlen, Bool.not_true, Bool.false_eq_true,
    if_false, luhn_checksum_eq_spec, decide_eq_true_eq]

/-- C5 witness: the general equivalence applied at the concrete card number
`4111 1111 1111 1111`. -/
theorem claim_C5_witness :
    is_valid_credit_card "4111 1111 1111 1111" = true ↔
      luhn_spec_sum ((stripCardSeps ("4111 1111 1111 1111" : String).data).map digitVal)
        % 10 = 0 :=
  claim_C5.1 "4111 1111 1111 1111" (by decide) (by decide) (by decide)

/-- C7.  In the default order the email rule runs strictly before the URL
rule, which runs strictly before the IP rule; `mask_text` sends
`user@example.com` to `{{EMAIL}}` (and the output nowhere contains `{{URL}}`),
and sends `192.168.0.1:8080` to `{{IP}}:{{PORT}}`. -/
theorem claim_C7 :
    ALL_MASKER_RULES.findIdx (fun r => r.name = "EmailRule")
      < ALL_MASKER_RULES.findIdx (fun r => r.name = "UrlRule") ∧
    ALL_MASKER_RULES.findIdx (fun r => r.name = "UrlRule")
      < ALL_MASKER_RULES.findIdx (fun r => r.name = "IpRule") ∧
    mask_text "user@example.com" = "\x7b\x7bEMAIL\x7d\x7d" ∧
    (¬ ∃ pre post, (mask_text "user@example.com").data = pre ++ ph "URL" ++ post) ∧
    mask_text "192.168.0.1:8080" = "\x7b\x7bIP\x7d\x7d:\x7b\x7bPORT\x7d\x7d" := by
  refine ⟨by decide, by decide, rfl, ?_, rfl⟩
  intro hex
  have h : hasInfix (ph "URL") (mask_text "user@example.com").data = true :=
    (hasInfix_true_iff _ _).mpr hex
  have h2 : hasInfix (ph "URL") (mask_text "user@example.com").data = false := rfl
  rw [h] at h2
  exact absurd h2 (by decide)

mutual

/-- Boolean payload equality is propositional equality. -/
theorem pEq_iff : ∀ (a b : Payload), pEq a b = true ↔ a = b
  | .str x, b => by cases b <;> simp [pEq]
  | .num x, b => by cases b <;> simp [pEq]
  | .bool x, b => by cases b <;> simp [pEq]
  | .null, b => by cases b <;> simp [pEq]
  | .obj x, b => by cases b <;> simp [pEq]
  | .dict x, b => by
    cases b <;> simp [pEq]
    exact pDictEq_iff x _
  | .arr x, b => by
    cases b <;> simp [pEq]
    exact pListEq_iff x _

/-- Boolean payload-list equality is propositional equality. -/
theorem pListEq_iff : ∀ (a b : PList), pListEq a b = true ↔ a = b
  | .nil, b => by cases b <;> simp [pListEq]
  | .cons h t, b => by
    cases b with
    | nil => simp [pListEq]
    | cons h2 t2 =>
      simp [pListEq, Bool.and_eq_true, pEq_iff h h2, pListEq_iff t t2]

/-- Boolean payload-dict equality is propositional equality. -/
theorem pDictEq_iff : ∀ (a b : PDict), pDictEq a b = true ↔ a = b
  | .nil, b => by cases b <;> simp [pDictEq]
  | .cons k v t, b => by
    cases b with
    | nil => simp [pDictEq]
    | cons k2 v2 t2 =>
      simp [pDictEq, Bool.and_eq_true, pEq_iff k k2, pEq_iff v v2, pDictEq_iff t t2,
        and_assoc]

end

/-- Masking a payload list maps the masker over the elements. -/
theorem maskPList_toList (mt : String → String) :
    ∀ l : PList, (_mask_list mt l).toList = l.toList.map (mask_payload mt)
  | .nil => rfl
  | .cons h t => by
    simp [_mask_list, PList.toList, maskPList_toList mt t]

/-- Every entry of `dictInsert d k v` is an entry of `d` or the pair
`(k, v)`. -/
theorem mem_dictInsert (k v : Payload) :
    ∀ (d : PDict), ∀ e ∈ (dictInsert d k v).toList, e ∈ d.toList ∨ e = (k, v)
  | .nil => by
    intro e he
    simp only [dictInsert, PDict.toList, List.mem_singleton] at he
    right; exact he
  | .cons k0 v0 tl => by
    intro e he
    by_cases h : pEq k0 k = true
    · have hk : k0 = k := (pEq_iff k0 k).mp h
      simp only [dictInsert, h, if_true, PDict.toList, List.mem_cons] at he
      rcases he with rfl | he
      · right; rw [hk]
      · left; simp [PDict.toList, he]
    · simp only [dictInsert, h, if_false, PDict.toList, List.mem_cons] at he
      rcases he with rfl | he
      · left; simp [PDict.toList]
      · rcases mem_dictInsert k v tl e he with h2 | h2
        · left; simp [PDict.toList, h2]
        · right; exact h2

/-- Entries produced by the `_mask_dict` loop satisfy any predicate that
holds of the accumulator's entries and of every masked input pair. -/
theorem mask_dict_entries_sub (mt : String → String) (Q : Payload × Payload → Prop) :
    ∀ (m : PDict) (acc : PDict),
      (∀ e ∈ acc.toList, Q e) →
      (∀ kv ∈ m.toList, Q (mask_payload mt kv.1, mask_payload mt kv.2)) →
      ∀ e ∈ (_mask_dict mt m acc).toList, Q e
  | .nil => by
    intro acc hacc _ e he; exact hacc e he
  | .cons k v tl => by
    intro acc hacc hm e he
    simp only [_mask_dict] at he
    refine mask_dict_entries_sub mt Q tl _ ?_
      (fun kv hkv => hm kv (by simp [PDict.toList, hkv])) e he
    intro e2 he2
    rcases mem_dictInsert _ _ _ e2 he2 with h | h
    · exact hacc e2 h
    · rw [h]; exact hm (k, v) (by simp [PDict.toList])

/-- C8.  `mask_payload` sends a string to the masked string, a list to the
element-wise masked list (same order and length), a dict to a dict whose
every entry is a masked key paired with a masked value from the input, and
any other value (numbers, booleans, null, opaque objects) to itself. -/
theorem claim_C8 (mt : String → String) (s : String) (n : Int) (b : Bool) (t : Nat)
    (l : PList) (m : PDict) :
    mask_payload mt (.str s) = .str (mt s) ∧
    mask_payload mt (.arr l) = .arr (_mask_list mt l) ∧
    (_mask_list mt l).toList = l.toList.map (mask_payload mt) ∧
    mask_payload mt (.dict m) = .dict (_mask_dict mt m .nil) ∧
    (∀ e ∈ (_mask_dict mt m .nil).toList, ∃ kv ∈ m.toList,
        e = (mask_payload mt kv.1, mask_payload mt kv.2)) ∧
    mask_payload mt (.num n) = .num n ∧
    mask_payload mt (.bool b) = .bool b ∧
    mask_payload mt .null = .null ∧
    mask_payload mt (.obj t) = .obj t := by
  refine ⟨rfl, rfl, maskPList_toList mt l, rfl, ?_, rfl, rfl, rfl, rfl⟩
  refine mask_dict_entries_sub mt _ m .nil ?_ (fun kv hkv => ⟨kv, hkv, rfl⟩)
  intro e he
  simp [PDict.toList] at he

/-- C8 witness: the traversal applied with the default masker at concrete
payloads. -/
theorem claim_C8_witness :
    mask_payload mask_text (.str "user@example.com")
      = .str (mask_text "user@example.com") ∧
    mask_payload mask_text (.num 7) = .num 7 :=
  ⟨(claim_C8 mask_text "user@example.com" 7 true 0 .nil .nil).1,
   (claim_C8 mask_text "user@example.com" 7 true 0 .nil .nil).2.2.2.2.2.1⟩

/-- The `_mask_dict` loop is the fold of `dictInsert` over the masked
entries. -/
theorem mask_dict_eq_fold (mt : String → String) :
    ∀ (m : PDict) (acc : PDict),
      _mask_dict mt m acc = dictInsertAll acc (maskedEntries mt m)
  | .nil => by intro acc; rfl
  | .cons k v tl => by
    intro acc
    simp only [_mask_dict, maskedEntries, PDict.toList, List.map_cons]
    rw [mask_dict_eq_fold mt tl]
    rfl

/-- A dict has as many entries as keys. -/
theorem toList_length_eq_keys :
    ∀ d : PDict, d.toList.length = (keysOf d).length
  | .nil => rfl
  | .cons k v tl => by
    simp [PDict.toList, keysOf, toList_length_eq_keys tl]

/-- `dictInsert` acts on the key list as `insKey`. -/
theorem keysOf_dictInsert (k v : Payload) :
    ∀ d : PDict, keysOf (dictInsert d k v) = insKey (keysOf d) k
  | .nil => by simp [dictInsert, keysOf, insKey]
  | .cons k0 v0 tl => by
    by_cases h : pEq k0 k = true
    · simp [dictInsert, h, keysOf, insKey, List.any_cons]
    · simp only [dictInsert, h, if_false, keysOf, keysOf_dictInsert k v tl, insKey,
        List.any_cons, Bool.false_or]
      by_cases hany : (keysOf tl).any (fun k0 => pEq k0 k) = true
      · simp [hany]
      · simp only [Bool.not_eq_true] at hany
        simp [hany]

/-- Folding `dictInsert` acts on keys as folding `insKey`. -/
theorem keysOf_dictInsertAll :
    ∀ (ps : List (Payload × Payload)) (acc : PDict),
      keysOf (dictInsertAll acc ps)
        = List.foldl insKey (keysOf acc) (ps.map Prod.fst) := by
  intro ps
  induction ps with
  | nil => intro acc; rfl
  | cons p t ih =>
    intro acc
    simp only [dictInsertAll, List.foldl_cons, List.map_cons]
    rw [show List.foldl (fun d kv => dictInsert d kv.1 kv.2) (dictInsert acc p.1 p.2) t
        = dictInsertAll (dictInsert acc p.1 p.2) t from rfl,
      ih, keysOf_dictInsert]

/-- `insKey` grows the key list by at most one. -/
theorem insKey_length_le (ks : List Payload) (k : Payload) :
    (insKey ks k).length ≤ ks.length + 1 := by
  unfold insKey
  by_cases h : ks.any (fun k0 => pEq k0 k) = true <;> simp [h]

/-- The inserted key is present afterwards. -/
theorem insKey_self_mem (ks : List Payload) (k : Payload) : k ∈ insKey ks k := by
  unfold insKey
  by_cases h : ks.any (fun k0 => pEq k0 k) = true
  · simp only [h, if_true]
    rcases List.any_eq_true.mp h with ⟨k0, hk0, hpeq⟩
    rw [← (pEq_iff k0 k).mp hpeq]
    exact hk0
  · simp [h]

/-- `insKey` preserves membership. -/
theorem insKey_mem_mono (ks : List Payload) (k x : Payload) (hx : x ∈ ks) :
    x ∈ insKey ks k := by
  unfold insKey
  by_cases h : ks.any (fun k0 => pEq k0 k) = true <;> simp [h, hx]

/-- Inserting a present key changes nothing. -/
theorem insKey_of_mem (ks : List Payload) (k : Payload) (hk : k ∈ ks) :
    insKey ks k = ks := by
  unfold insKey
  have : ks.any (fun k0 => pEq k0 k) = true :=
    List.any_eq_true.mpr ⟨k, hk, (pEq_iff k k).mpr rfl⟩
  simp [this]

/-- Folding `insKey` adds at most one key per element. -/
theorem foldl_insKey_len :
    ∀ (l : List Payload) (acc : List Payload),
      (List.foldl insKey acc l).length ≤ acc.length + l.length := by
  intro l
  induction l with
  | nil => intro acc; simp
  | cons a t ih =>
    intro acc
    calc (List.foldl insKey (insKey acc a) t).length
        ≤ (insKey acc a).length + t.length := ih _
      _ ≤ (acc.length + 1) + t.length := by
          have := insKey_length_le acc a; omega
      _ = acc.length + (a :: t).length := by simp; omega

/-- Folding `insKey` preserves membership. -/
theorem foldl_insKey_mem :
    ∀ (l : List Payload) (acc : List Payload) (x : Payload), x ∈ acc →
      x ∈ List.foldl insKey acc l := by
  intro l
  induction l with
  | nil => intro acc x hx; simpa using hx
  | cons a t ih =>
    intro acc x hx
    exact ih _ x (insKey_mem_mono acc a x hx)

/-- A key list with a repeated key dedupes to strictly fewer keys. -/
theorem foldl_insKey_dup_len (l1 l2 l3 : List Payload) (K : Payload) :
    (List.foldl insKey [] (l1 ++ K :: (l2 ++ K :: l3))).length
      < (l1 ++ K :: (l2 ++ K :: l3)).length := by
  rw [List.foldl_append, List.foldl_cons, List.foldl_append, List.foldl_cons]
  set A1 := List.foldl insKey [] l1 with hA1
  set A3 := List.foldl insKey (insKey A1 K) l2 with hA3
  have hK3 : K ∈ A3 := foldl_insKey_mem l2 _ K (insKey_self_mem A1 K)
  rw [insKey_of_mem A3 K hK3]
  have b1 : A1.length ≤ l1.length := by
    have := foldl_insKey_len l1 []
    simpa using this
  have b3 : A3.length ≤ (insKey A1 K).length + l2.length := foldl_insKey_len l2 _
  have b2 : (insKey A1 K).length ≤ A1.length + 1 := insKey_length_le A1 K
  have b5 : (List.foldl insKey A3 l3).length ≤ A3.length + l3.length :=
    foldl_insKey_len l3 A3
  simp only [List.length_append, List.length_cons]
  omega

/-- Lookup after a Python-dict insert. -/
theorem dictLookup_dictInsert (k v K : Payload) :
    ∀ d : PDict, dictLookup (dictInsert d k v) K
      = if pEq k K = true then some v else dictLookup d K
  | .nil => by simp [dictInsert, dictLookup]
  | .cons k0 v0 tl => by
    by_cases h : pEq k0 k = true
    · have hk : k0 = k := (pEq_iff k0 k).mp h
      subst hk
      simp only [dictInsert, h, if_true, dictLookup]
      by_cases hK : pEq k0 K = true <;> simp [hK]
    · simp only [dictInsert, h, if_false, dictLookup, dictLookup_dictInsert k v K tl]
      by_cases hK : pEq k0 K = true
      · have hkK : pEq k K = false := by
          rcases hb : pEq k K with _ | _
          · rfl
          · exfalso
            apply h
            have h1 : k0 = K := (pEq_iff k0 K).mp hK
            have h2 : k = K := (pEq_iff k K).mp hb
            exact (pEq_iff k0 k).mpr (h1.trans h2.symm)
        simp [hK, hkK]
      · simp [hK]

/-- Lookup after folding inserts: the last inserted value for the key wins,
falling back to the accumulator. -/
theorem dictLookup_insertAll (K : Payload) :
    ∀ (ps : List (Payload × Payload)) (acc : PDict),
      dictLookup (dictInsertAll acc ps) K
        = match lastVal ps K with
          | some w => some w
          | none => dictLookup acc K := by
  intro ps
  induction ps with
  | nil => intro acc; rfl
  | cons p t ih =>
    intro acc
    simp only [dictInsertAll, List.foldl_cons]
    rw [show List.foldl (fun d kv => dictInsert d kv.1 kv.2) (dictInsert acc p.1 p.2) t
        = dictInsertAll (dictInsert acc p.1 p.2) t from rfl, ih]
    simp only [lastVal]
    cases lastVal t K with
    | some w => rfl
    | none =>
      rw [dictLookup_dictInsert]
      by_cases hp : pEq p.1 K = true <;> simp [hp]

/-- `lastVal` over an append prefers the right part. -/
theorem lastVal_append (K : Payload) :
    ∀ (a b : List (Payload × Payload)),
      lastVal (a ++ b) K
        = match lastVal b K with
          | some w => some w
          | none => lastVal a K := by
  intro a b
  induction a with
  | nil =>
    simp only [List.nil_append]
    cases lastVal b K <;> rfl
  | cons p t ih =>
    have h1 : lastVal ((p :: t) ++ b) K
        = match lastVal (t ++ b) K with
          | some w => some w
          | none => if pEq p.1 K = true then some p.2 else none := rfl
    rw [h1, ih]
    have h2 : lastVal (p :: t) K
        = match lastVal t K with
          | some w => some w
          | none => if pEq p.1 K = true then some p.2 else none := rfl
    cases lastVal b K with
    | some w => rfl
    | none => rw [h2]

/-- No entry with the key means no last value. -/
theorem lastVal_none (K : Payload) :
    ∀ ps : List (Payload × Payload), (∀ p ∈ ps, p.1 ≠ K) → lastVal ps K = none := by
  intro ps
  induction ps with
  | nil => intro _; rfl
  | cons p t ih =>
    intro h
    have hp : pEq p.1 K = false := by
      rcases hb : pEq p.1 K with _ | _
      · rfl
      · exact absurd ((pEq_iff p.1 K).mp hb) (h p (by simp))
    simp only [lastVal, ih (fun q hq => h q (by simp [hq])), hp]
    rfl

/-- C10.  When two distinct keys of the input dict mask to the same payload
(the second being the last such key in iteration order), the masked dict has
strictly fewer entries than the input, and the entry kept under the collided
key holds the masked value of the later key. -/
theorem claim_C10 (mt : String → String) (m : PDict)
    (pre mid post : List (Payload × Payload)) (ki vi kj vj : Payload)
    (hsplit : m.toList = pre ++ (ki, vi) :: (mid ++ (kj, vj) :: post))
    (hne : ki ≠ kj)
    (hcol : mask_payload mt ki = mask_payload mt kj)
    (hlast : ∀ p ∈ post, mask_payload mt p.1 ≠ mask_payload mt kj) :
    (_mask_dict mt m .nil).toList.length < m.toList.length ∧
    dictLookup (_mask_dict mt m .nil) (mask_payload mt kj)
      = some (mask_payload mt vj) := by
  have hME : maskedEntries mt m
      = pre.map (fun kv => (mask_payload mt kv.1, mask_payload mt kv.2))
        ++ (mask_payload mt kj, mask_payload mt vi)
        :: (mid.map (fun kv => (mask_payload mt kv.1, mask_payload mt kv.2))
            ++ (mask_payload mt kj, mask_payload mt vj)
            :: post.map (fun kv => (mask_payload mt kv.1, mask_payload mt kv.2))) := by
    simp [maskedEntries, hsplit, hcol]
  rw [mask_dict_eq_fold]
  constructor
  · rw [toList_length_eq_keys, keysOf_dictInsertAll, hME]
    have hkeys :
        ((pre.map (fun kv => (mask_payload mt kv.1, mask_payload mt kv.2))
          ++ (mask_payload mt kj, mask_payload mt vi)
          :: (mid.map (fun kv => (mask_payload mt kv.1, mask_payload mt kv.2))
              ++ (mask_payload mt kj, mask_payload mt vj)
              :: post.map (fun kv => (mask_payload mt kv.1, mask_payload mt kv.2)))).map
          Prod.fst)
        = (pre.map (fun kv => mask_payload mt kv.1))
          ++ mask_payload mt kj
          :: ((mid.map (fun kv => mask_payload mt kv.1))
              ++ mask_payload mt kj
              :: (post.map (fun kv => mask_payload mt kv.1))) := by
      simp [List.map_append, List.map_map, Function.comp_def]
    rw [show keysOf PDict.nil = [] from rfl, hkeys]
    have := foldl_insKey_dup_len (pre.map (fun kv => mask_payload mt kv.1))
      (mid.map (fun kv => mask_payload mt kv.1))
      (post.map (fun kv => mask_payload mt kv.1)) (mask_payload mt kj)
    have hlen : m.toList.length
        = ((pre.map (fun kv => mask_payload mt kv.1))
          ++ mask_payload mt kj
          :: ((mid.map (fun kv => mask_payload mt kv.1))
              ++ mask_payload mt kj
              :: (post.map (fun kv => mask_payload mt kv.1)))).length := by
      simp [hsplit]
    omega
  · rw [dictLookup_insertAll, hME, lastVal_append]
    have hpost : lastVal (post.map (fun kv =>
        (mask_payload mt kv.1, mask_payload mt kv.2))) (mask_payload mt kj) = none := by
      refine lastVal_none _ _ ?_
      intro p hp
      rcases List.mem_map.mp hp with ⟨q, hq, rfl⟩
      exact hlast q hq
    have hself : pEq (mask_payload mt kj) (mask_payload mt kj) = true :=
      (pEq_iff _ _).mpr rfl
    simp only [lastVal, lastVal_append, hpost, hself, if_true]

set_option maxHeartbeats 800000 in
/-- C10 witness: two distinct email keys collide to `{{EMAIL}}`; the masked
dict shrinks from two entries to one, and the kept value is the masked value
of the later key. -/
theorem claim_C10_witness :
    (_mask_dict mask_text
        (.cons (.str "a@b.com") (.num 1)
          (.cons (.str "c@d.com") (.num 2) .nil)) .nil).toList.length
      < (PDict.cons (.str "a@b.com") (.num 1)
          (.cons (.str "c@d.com") (.num 2) .nil)).toList.length ∧
    dictLookup
        (_mask_dict mask_text
          (.cons (.str "a@b.com") (.num 1)
            (.cons (.str "c@d.com") (.num 2) .nil)) .nil)
        (mask_payload mask_text (.str "c@d.com"))
      = some (mask_payload mask_text (.num 2)) := by
  have e1 : mask_payload mask_text (.str "a@b.com") = .str "\x7b\x7bEMAIL\x7d\x7d" :=
    congrArg Payload.str (rfl : mask_text "a@b.com" = "\x7b\x7bEMAIL\x7d\x7d")
  have e2 : mask_payload mask_text (.str "c@d.com") = .str "\x7b\x7bEMAIL\x7d\x7d" :=
    congrArg Payload.str (rfl : mask_text "c@d.com" = "\x7b\x7bEMAIL\x7d\x7d")
  exact claim_C10 mask_text _ [] [] [] (.str "a@b.com") (.num 1)
    (.str "c@d.com") (.num 2) rfl
    (fun h => by injection h with h2; exact absurd h2 (by decide))
    (e1.trans e2.symm)
    (fun p hp => absurd hp (List.not_mem_nil p))

/-- C9.  `FastMasker(rules=[])` behaves exactly like `FastMasker()`: the
constructor's `rules or self.ALL_MASKER_RULES` treats the empty list as falsy,
so the full default set applies and the masker is not the identity on
sensitive strings. -/
theorem claim_C9 :
    fastMaskerInit (some []) = fastMaskerInit none ∧
    maskTextWith (fastMaskerInit (some [])) "user@example.com" ≠ "user@example.com" := by
  refine ⟨rfl, ?_⟩
  have h : maskTextWith (fastMaskerInit (some [])) "user@example.com"
      = "\x7b\x7bEMAIL\x7d\x7d" := rfl
  rw [h]
  decide

/-! ### Unfolding equations of the matcher

One `rfl` equation per constructor (at successor fuel), so that symbolic runs
of the matcher can be driven by `rw` without unfolding `mat` wholesale. -/

/-- The matcher fails when the fuel is exhausted. -/
theorem mat_zero (re : RE) (prev : Option Char) (cs : List Char) (caps : Caps)
    (k : Option Char → List Char → Caps → Option MRes) :
    mat 0 re prev cs caps k = none := rfl

/-- Unfolding: `eps` passes through. -/
theorem mat_eps (f : Nat) (prev : Option Char) (cs : List Char) (caps : Caps)
    (k : Option Char → List Char → Caps → Option MRes) :
    mat (f + 1) .eps prev cs caps k = k prev cs caps := rfl

/-- Unfolding: a character class fails on empty input. -/
theorem mat_cls_nil (f : Nat) (q : Char → Bool) (prev : Option Char) (caps : Caps)
    (k : Option Char → List Char → Caps → Option MRes) :
    mat (f + 1) (.cls q) prev [] caps k = none := rfl

/-- Unfolding: a character class tests the head character. -/
theorem mat_cls_cons (f : Nat) (q : Char → Bool) (prev : Option Char) (c : Char)
    (rest : List Char) (caps : Caps)
    (k : Option Char → List Char → Caps → Option MRes) :
    mat (f + 1) (.cls q) prev (c :: rest) caps k
      = if q c then k (some c) rest caps else none := rfl

/-- Unfolding: sequencing runs the first part with the second as
continuation. -/
theorem mat_seq (f : Nat) (a b : RE) (prev : Option Char) (cs : List Char)
    (caps : Caps) (k : Option Char → List Char → Caps → Option MRes) :
    mat (f + 1) (.seq a b) prev cs caps k
      = mat f a prev cs caps (fun p2 r2 c2 => mat f b p2 r2 c2 k) := rfl

/-- Unfolding: alternation tries the left branch first. -/
theorem mat_alt (f : Nat) (a b : RE) (prev : Option Char) (cs : List Char)
    (caps : Caps) (k : Option Char → List Char → Caps → Option MRes) :
    mat (f + 1) (.alt a b) prev cs caps k
      = match mat f a prev cs caps k with
        | some x => some x
        | none => mat f b prev cs caps k := rfl

/-- Unfolding: an exhausted counted repetition passes through. -/
theorem mat_rep_zero (f : Nat) (r : RE) (prev : Option Char) (cs : List Char)
    (caps : Caps) (k : Option Char → List Char → Caps → Option MRes) :
    mat (f + 1) (.rep 0 0 r) prev cs caps k = k prev cs caps := rfl

/-- Unfolding: an optional repetition prefers one more iteration. -/
theorem mat_rep_opt (f hi : Nat) (r : RE) (prev : Option Char) (cs : List Char)
    (caps : Caps) (k : Option Char → List Char → Caps → Option MRes) :
    mat (f + 1) (.rep 0 (hi + 1) r) prev cs caps k
      = match mat f r prev cs caps
            (fun p2 r2 c2 => mat f (.rep 0 hi r) p2 r2 c2 k) with
        | some x => some x
        | none => k prev cs caps := rfl

/-- Unfolding: a mandatory repetition runs one iteration then recurses. -/
theorem mat_rep_succ (f lo hi : Nat) (r : RE) (prev : Option Char) (cs : List Char)
    (caps : Caps) (k : Option Char → List Char → Caps → Option MRes) :
    mat (f + 1) (.rep (lo + 1) (hi + 1) r) prev cs caps k
      = mat f r prev cs caps
          (fun p2 r2 c2 => mat f (.rep lo hi r) p2 r2 c2 k) := rfl

/-- Unfolding: greedy star tries the body first, guarded by progress. -/
theorem mat_star (f : Nat) (r : RE) (prev : Option Char) (cs : List Char)
    (caps : Caps) (k : Option Char → List Char → Caps → Option MRes) :
    mat (f + 1) (.star r) prev cs caps k
      = match mat f r prev cs caps
            (fun p2 r2 c2 =>
              if r2.length < cs.length then mat f (.star r) p2 r2 c2 k else none) with
        | some x => some x
        | none => k prev cs caps := rfl

/-- Unfolding: lazy star tries the continuation first. -/
theorem mat_starL (f : Nat) (r : RE) (prev : Option Char) (cs : List Char)
    (caps : Caps) (k : Option Char → List Char → Caps → Option MRes) :
    mat (f + 1) (.starL r) prev cs caps k
      = match k prev cs caps with
        | some x => some x
        | none =>
          mat f r prev cs caps
            (fun p2 r2 c2 =>
              if r2.length < cs.length then mat f (.starL r) p2 r2 c2 k else none) := rfl

/-- Unfolding: word boundary. -/
theorem mat_wb (f : Nat) (prev : Option Char) (cs : List Char) (caps : Caps)
    (k : Option Char → List Char → Caps → Option MRes) :
    mat (f + 1) .wb prev cs caps k
      = if boundaryAt prev cs then k prev cs caps else none := rfl

/-- Unfolding: negative lookahead probes the body. -/
theorem mat_nla (f : Nat) (r : RE) (prev : Option Char) (cs : List Char)
    (caps : Caps) (k : Option Char → List Char → Caps → Option MRes) :
    mat (f + 1) (.nla r) prev cs caps k
      = match mat f r prev cs caps (fun p2 r2 c2 => some (p2, r2, c2)) with
        | none => k prev cs caps
        | some _ => none := rfl

/-- Unfolding: negative lookbehind with no previous character passes. -/
theorem mat_nlb_none (f : Nat) (q : Char → Bool) (cs : List Char) (caps : Caps)
    (k : Option Char → List Char → Caps → Option MRes) :
    mat (f + 1) (.nlb q) none cs caps k = k none cs caps := rfl

/-- Unfolding: negative lookbehind tests the previous character. -/
theorem mat_nlb_some (f : Nat) (q : Char → Bool) (c : Char) (cs : List Char)
    (caps : Caps) (k : Option Char → List Char → Caps → Option MRes) :
    mat (f + 1) (.nlb q) (some c) cs caps k
      = if q c then none else k (some c) cs caps := rfl

/-- Unfolding: a group records the consumed slice in the captures. -/
theorem mat_grp (f n : Nat) (r : RE) (prev : Option Char) (cs : List Char)
    (caps : Caps) (k : Option Char → List Char → Caps → Option MRes) :
    mat (f + 1) (.grp n r) prev cs caps k
      = mat f r prev cs caps
          (fun p2 r2 c2 => k p2 r2 ((n, cs.take (cs.length - r2.length)) :: c2)) := rfl

/-- Unfolding equation of one scanning step of `re.sub`. -/
theorem subGo_succ (re : RE) (repl : List Char → Caps → List Char) (f : Nat)
    (prev : Option Char) (cs : List Char) :
    subGo re repl (f + 1) prev cs
      = match topMatch re prev cs with
        | none =>
          match cs with
          | [] => []
          | c :: rest => c :: subGo re repl f (some c) rest
        | some (p2, rest, caps) =>
          if rest.length < cs.length then
            repl (cs.take (cs.length - rest.length)) caps ++ subGo re repl f p2 rest
          else
            match cs with
            | [] => repl [] caps
            | c :: rest2 => repl [] caps ++ c :: subGo re repl f (some c) rest2 := rfl

/-- A `String` is its list of characters. -/
theorem string_mk_data (s : String) : String.mk s.data = s := by cases s; rfl

/-! ### Facts about digit characters -/

/-- A character passing `Char.isDigit` is one of the ten digit characters. -/
theorem digit_mem_digitChars (c : Char) (h : c.isDigit = true) : c ∈ digitChars := by
  unfold Char.isDigit at h
  simp only [Bool.and_eq_true, decide_eq_true_eq] at h
  obtain ⟨h1, h2⟩ := h
  have n1 : 48 ≤ c.toNat := h1
  have n2 : c.toNat ≤ 57 := h2
  have hc := (Char.ofNat_toNat c).symm
  set n := c.toNat with hn
  interval_cases n <;> rw [hc] <;> decide

/-- Digits are word characters. -/
theorem digit_isWordChar (c : Char) (h : c.isDigit = true) : isWordChar c = true := by
  have := digit_mem_digitChars c h
  fin_cases this <;> rfl

/-- Digits are not markdown markers. -/
theorem digit_not_mark (c : Char) (h : c.isDigit = true) : cSet "_*" c = false := by
  have := digit_mem_digitChars c h
  fin_cases this <;> rfl

/-- A class accepting some digit is digit-compatible. -/
theorem clsDigitCompat_of (q : Char → Bool) (c : Char) (hc : c.isDigit = true)
    (hq : q c = true) : clsDigitCompat q = true := by
  unfold clsDigitCompat
  exact List.any_eq_true.mpr ⟨c, digit_mem_digitChars c hc, hq⟩

/-- No word boundary between two digits. -/
theorem boundary_dd (d c : Char) (r : List Char) (hd : d.isDigit = true)
    (hc : c.isDigit = true) : boundaryAt (some d) (c :: r) = false := by
  simp [boundaryAt, digit_isWordChar d hd, digit_isWordChar c hc]

/-- Word boundary at the start of a digit string. -/
theorem boundary_start (c : Char) (r : List Char) (hc : c.isDigit = true) :
    boundaryAt none (c :: r) = true := by
  simp [boundaryAt, digit_isWordChar c hc]

/-- Word boundary after a digit at the end of the input. -/
theorem boundary_end (d : Char) (hd : d.isDigit = true) :
    boundaryAt (some d) [] = true := by
  simp [boundaryAt, digit_isWordChar d hd]

/-! ### Inversion and membership lemmas for the length-set algebra -/

/-- Inversion of `addSets`. -/
theorem addSets_inv {x y : Option (List Nat)} {L : List Nat}
    (h : addSets x y = some L) :
    x = some [] ∨ y = some [] ∨ ∃ A B, x = some A ∧ y = some B ∧ L = addL A B := by
  cases x with
  | none =>
    cases y with
    | none => exact absurd h (by simp [addSets])
    | some B =>
      cases B with
      | nil => exact Or.inr (Or.inl rfl)
      | cons b bs => exact absurd h (by simp [addSets])
  | some A =>
    cases A with
    | nil => exact Or.inl rfl
    | cons a as =>
      cases y with
      | none => exact absurd h (by simp [addSets])
      | some B =>
        cases B with
        | nil => exact Or.inr (Or.inl rfl)
        | cons b bs =>
          exact Or.inr (Or.inr ⟨a :: as, b :: bs, rfl, rfl, (Option.some.inj h).symm⟩)

/-- Inversion of `unionSets`. -/
theorem unionSets_inv {x y : Option (List Nat)} {L : List Nat}
    (h : unionSets x y = some L) :
    ∃ A B, x = some A ∧ y = some B ∧ L = unionL A B := by
  cases x with
  | none => exact absurd h (by simp [unionSets])
  | some A =>
    cases y with
    | none => exact absurd h (by simp [unionSets])
    | some B => exact ⟨A, B, rfl, rfl, (Option.some.inj h).symm⟩

/-- Sums of members are members of the sum set. -/
theorem mem_addL {a b : Nat} {A B : List Nat} (ha : a ∈ A) (hb : b ∈ B) :
    a + b ∈ addL A B := by
  unfold addL
  rw [List.mem_dedup]
  exact List.mem_flatMap.mpr ⟨a, ha, List.mem_map.mpr ⟨b, hb, rfl⟩⟩

/-- Left injection into a union set. -/
theorem mem_unionL_left {a : Nat} {A B : List Nat} (h : a ∈ A) : a ∈ unionL A B := by
  unfold unionL
  rw [List.mem_dedup]
  exact List.mem_append_left B h

/-- Right injection into a union set. -/
theorem mem_unionL_right {a : Nat} {A B : List Nat} (h : a ∈ B) : a ∈ unionL A B := by
  unfold unionL
  rw [List.mem_dedup]
  exact List.mem_append_right A h

/-! ### Soundness of the digit-consumption analysis -/

/-- The matcher returns `none` whenever its continuation answers `none` on
every suffix of the input. -/
theorem matNoneOfK : ∀ (fuel : Nat) (re : RE) (prev : Option Char) (cs : List Char)
    (caps : Caps) (k : Option Char → List Char → Caps → Option MRes),
    (∀ p2 r2 c2, r2 <:+ cs → k p2 r2 c2 = none) →
    mat fuel re prev cs caps k = none := by
  intro fuel
  induction fuel with
  | zero => intro re prev cs caps k _; rfl
  | succ f ih =>
    intro re prev cs caps k hk
    cases re with
    | eps => exact hk prev cs caps (List.suffix_refl cs)
    | cls q =>
      cases cs with
      | nil => rfl
      | cons c rest =>
        rw [mat_cls_cons]
        by_cases hq : q c = true
        · rw [if_pos hq]; exact hk (some c) rest caps (List.suffix_cons c rest)
        · rw [if_neg hq]
    | seq a b =>
      rw [mat_seq]
      exact ih a prev cs caps _ (fun p2 r2 c2 hsuf =>
        ih b p2 r2 c2 k (fun p3 r3 c3 hsuf3 => hk p3 r3 c3 (hsuf3.trans hsuf)))
    | alt a b =>
      rw [mat_alt, ih a prev cs caps k hk]
      exact ih b prev cs caps k hk
    | rep lo hi r =>
      cases lo with
      | zero =>
        cases hi with
        | zero => rw [mat_rep_zero]; exact hk prev cs caps (List.suffix_refl cs)
        | succ hi =>
          rw [mat_rep_opt]
          rw [ih r prev cs caps _ (fun p2 r2 c2 hsuf =>
            ih (.rep 0 hi r) p2 r2 c2 k
              (fun p3 r3 c3 hsuf3 => hk p3 r3 c3 (hsuf3.trans hsuf)))]
          exact hk prev cs caps (List.suffix_refl cs)
      | succ lo =>
        cases hi with
        | zero => rfl
        | succ hi =>
          rw [mat_rep_succ]
          exact ih r prev cs caps _ (fun p2 r2 c2 hsuf =>
            ih (.rep lo hi r) p2 r2 c2 k
              (fun p3 r3 c3 hsuf3 => hk p3 r3 c3 (hsuf3.trans hsuf)))
    | star r =>
      have hbody : ∀ p2 r2 c2, r2 <:+ cs →
          (if r2.length < cs.length then mat f (.star r) p2 r2 c2 k else none) = none := by
        intro p2 r2 c2 hsuf
        by_cases hl : r2.length < cs.length
        · rw [if_pos hl]
          exact ih (.star r) p2 r2 c2 k
            (fun p3 r3 c3 hsuf3 => hk p3 r3 c3 (hsuf3.trans hsuf))
        · rw [if_neg hl]
      rw [mat_star, ih r prev cs caps _ hbody]
      exact hk prev cs caps (List.suffix_refl cs)
    | starL r =>
      have hbody : ∀ p2 r2 c2, r2 <:+ cs →
          (if r2.length < cs.length then mat f (.starL r) p2 r2 c2 k else none) = none := by
        intro p2 r2 c2 hsuf
        by_cases hl : r2.length < cs.length
        · rw [if_pos hl]
          exact ih (.starL r) p2 r2 c2 k
            (fun p3 r3 c3 hsuf3 => hk p3 r3 c3 (hsuf3.trans hsuf))
        · rw [if_neg hl]
      rw [mat_starL, hk prev cs caps (List.suffix_refl cs)]
      exact ih r prev cs caps _ hbody
    | wb =>
      rw [mat_wb]
      by_cases hb : boundaryAt prev cs = true
      · rw [if_pos hb]; exact hk prev cs caps (List.suffix_refl cs)
      · rw [if_neg hb]
    | nla r =>
      rw [mat_nla]
      cases hp : mat f r prev cs caps (fun p2 r2 c2 => some (p2, r2, c2)) with
      | none => exact hk prev cs caps (List.suffix_refl cs)
      | some x => rfl
    | nlb q =>
      cases prev with
      | none => rw [mat_nlb_none]; exact hk none cs caps (List.suffix_refl cs)
      | some c =>
        rw [mat_nlb_some]
        by_cases hq : q c = true
        · rw [if_pos hq]
        · rw [if_neg hq]; exact hk (some c) cs caps (List.suffix_refl cs)
    | grp n r =>
      rw [mat_grp]
      exact ih r prev cs caps _ (fun p2 r2 c2 hsuf => hk p2 r2 _ hsuf)

/-- Soundness of `lensD` on all-digit input: if the continuation answers
`none` on every suffix whose consumed length is in the computed set (with the
previous character tracked: unchanged when nothing was consumed, some digit
otherwise), the whole match answers `none`. -/
theorem mat_lens_none :
    ∀ (fuel : Nat) (re : RE) (L : List Nat) (prev : Option Char) (cs : List Char)
      (caps : Caps) (k : Option Char → List Char → Caps → Option MRes),
      lensD re = some L →
      (∀ c ∈ cs, c.isDigit = true) →
      (∀ p2 rest c2, rest <:+ cs → (cs.length - rest.length) ∈ L →
        (rest.length = cs.length → p2 = prev) →
        (rest.length < cs.length → ∃ d, p2 = some d ∧ d.isDigit = true) →
        k p2 rest c2 = none) →
      mat fuel re prev cs caps k = none := by
  intro fuel
  induction fuel with
  | zero => intro re L prev cs caps k _ _ _; rfl
  | succ f ih =>
    have hpair : ∀ (ra rb : RE) (L : List Nat) (prev : Option Char) (cs : List Char)
        (caps : Caps) (k : Option Char → List Char → Caps → Option MRes),
        addSets (lensD ra) (lensD rb) = some L →
        (∀ c ∈ cs, c.isDigit = true) →
        (∀ p2 rest c2, rest <:+ cs → (cs.length - rest.length) ∈ L →
          (rest.length = cs.length → p2 = prev) →
          (rest.length < cs.length → ∃ d, p2 = some d ∧ d.isDigit = true) →
          k p2 rest c2 = none) →
        mat f ra prev cs caps (fun p2 r2 c2 => mat f rb p2 r2 c2 k) = none := by
      intro ra rb L prev cs caps k hadd hall hk
      rcases addSets_inv hadd with ha | hb | ⟨A, B, hA, hB, hL⟩
      · exact ih ra [] prev cs caps _ ha hall
          (fun p2 rest c2 _ hmem _ _ => absurd hmem (List.not_mem_nil _))
      · refine matNoneOfK f ra prev cs caps _ ?_
        intro p2 r2 c2 hsuf
        exact ih rb [] p2 r2 c2 k hb (fun c hc => hall c (hsuf.subset hc))
          (fun p3 rest c3 _ hmem _ _ => absurd hmem (List.not_mem_nil _))
      · subst hL
        refine ih ra A prev cs caps _ hA hall ?_
        intro p2 rest1 c2 hsuf1 hcons1 h3 h4
        refine ih rb B p2 rest1 c2 k hB (fun c hc => hall c (hsuf1.subset hc)) ?_
        intro p3 rest2 c3 hsuf2 hcons2 h3' h4'
        have l1 := hsuf1.length_le
        have l2 := hsuf2.length_le
        refine hk p3 rest2 c3 (hsuf2.trans hsuf1) ?_ ?_ ?_
        · have e : cs.length - rest2.length
              = (cs.length - rest1.length) + (rest1.length - rest2.length) := by omega
          rw [e]
          exact mem_addL hcons1 hcons2
        · intro h
          rw [h3' (by omega)]
          exact h3 (by omega)
        · intro h
          by_cases h2 : rest2.length < rest1.length
          · exact h4' h2
          · rw [h3' (by omega)]
            exact h4 (by omega)
    intro re L prev cs caps k hlens hall hk
    cases re with
    | eps =>
      obtain rfl : L = [0] := (Option.some.inj hlens).symm
      rw [mat_eps]
      exact hk prev cs caps (List.suffix_refl cs) (by simp) (fun _ => rfl)
        (fun h => absurd h (lt_irrefl _))
    | cls q =>
      by_cases hcomp : clsDigitCompat q = true
      · have hL : L = [1] := by
          have h1 : lensD (.cls q) = some [1] := by simp [lensD, hcomp]
          rw [h1] at hlens
          exact (Option.some.inj hlens).symm
        subst hL
        cases cs with
        | nil => rfl
        | cons c rest =>
          rw [mat_cls_cons]
          by_cases hq : q c = true
          · rw [if_pos hq]
            refine hk (some c) rest caps (List.suffix_cons c rest) (by simp) ?_ ?_
            · intro h; simp at h
            · intro _
              exact ⟨c, rfl, hall c (List.mem_cons_self c rest)⟩
          · rw [if_neg hq]
      · cases cs with
        | nil => rfl
        | cons c rest =>
          have hq : q c = false := by
            cases hqc : q c
            · rfl
            · exact absurd (clsDigitCompat_of q c (hall c (List.mem_cons_self c rest)) hqc)
                hcomp
          rw [mat_cls_cons]
          simp [hq]
    | seq a b =>
      rw [mat_seq]
      exact hpair a b L prev cs caps k hlens hall hk
    | alt a b =>
      rcases unionSets_inv hlens with ⟨A, B, hA, hB, hL⟩
      subst hL
      rw [mat_alt]
      rw [ih a A prev cs caps k hA hall
        (fun p2 rest c2 hsuf hm h3 h4 => hk p2 rest c2 hsuf (mem_unionL_left hm) h3 h4)]
      exact ih b B prev cs caps k hB hall
        (fun p2 rest c2 hsuf hm h3 h4 => hk p2 rest c2 hsuf (mem_unionL_right hm) h3 h4)
    | rep lo hi r =>
      cases lo with
      | zero =>
        cases hi with
        | zero =>
          obtain rfl : L = [0] := (Option.some.inj hlens).symm
          rw [mat_rep_zero]
          exact hk prev cs caps (List.suffix_refl cs) (by simp) (fun _ => rfl)
            (fun h => absurd h (lt_irrefl _))
        | succ hi =>
          rcases unionSets_inv hlens with ⟨A, B, hA, hB, hL⟩
          obtain rfl : B = [0] := (Option.some.inj hB).symm
          subst hL
          rw [mat_rep_opt]
          have hbody : mat f r prev cs caps
              (fun p2 r2 c2 => mat f (.rep 0 hi r) p2 r2 c2 k) = none := by
            refine hpair r (.rep 0 hi r) A prev cs caps k hA hall ?_
            intro p2 rest c2 hsuf hm h3 h4
            exact hk p2 rest c2 hsuf (mem_unionL_left hm) h3 h4
          rw [hbody]
          refine hk prev cs caps (List.suffix_refl cs) ?_ (fun _ => rfl)
            (fun h => absurd h (lt_irrefl _))
          rw [Nat.sub_self]
          exact mem_unionL_right (by simp)
      | succ lo =>
        cases hi with
        | zero => rfl
        | succ hi =>
          rw [mat_rep_succ]
          exact hpair r (.rep lo hi r) L prev cs caps k hlens hall hk
    | star r =>
      have hlens' : (match lensD r with | some [] => some [0] | _ => none) = some L :=
        hlens
      cases hr : lensD r with
      | none =>
        rw [hr] at hlens'
        exact Option.noConfusion hlens'
      | some Lr =>
        cases Lr with
        | cons x xs =>
          rw [hr] at hlens'
          exact Option.noConfusion hlens'
        | nil =>
          rw [hr] at hlens'
          obtain rfl : L = [0] := (Option.some.inj hlens').symm
          have hbody : mat f r prev cs caps
              (fun p2 r2 c2 =>
                if r2.length < cs.length then mat f (.star r) p2 r2 c2 k else none)
              = none :=
            ih r [] prev cs caps _ hr hall
              (fun p2 rest c2 _ hm _ _ => absurd hm (List.not_mem_nil _))
          rw [mat_star, hbody]
          exact hk prev cs caps (List.suffix_refl cs) (by simp) (fun _ => rfl)
            (fun h => absurd h (lt_irrefl _))
    | starL r =>
      have hlens' : (match lensD r with | some [] => some [0] | _ => none) = some L :=
        hlens
      cases hr : lensD r with
      | none =>
        rw [hr] at hlens'
        exact Option.noConfusion hlens'
      | some Lr =>
        cases Lr with
        | cons x xs =>
          rw [hr] at hlens'
          exact Option.noConfusion hlens'
        | nil =>
          rw [hr] at hlens'
          obtain rfl : L = [0] := (Option.some.inj hlens').symm
          have hkk : k prev cs caps = none :=
            hk prev cs caps (List.suffix_refl cs) (by simp) (fun _ => rfl)
              (fun h => absurd h (lt_irrefl _))
          rw [mat_starL, hkk]
          exact ih r [] prev cs caps _ hr hall
            (fun p2 rest c2 _ hm _ _ => absurd hm (List.not_mem_nil _))
    | wb =>
      obtain rfl : L = [0] := (Option.some.inj hlens).symm
      rw [mat_wb]
      by_cases hb : boundaryAt prev cs = true
      · rw [if_pos hb]
        exact hk prev cs caps (List.suffix_refl cs) (by simp) (fun _ => rfl)
          (fun h => absurd h (lt_irrefl _))
      · rw [if_neg hb]
    | nla r =>
      obtain rfl : L = [0] := (Option.some.inj hlens).symm
      rw [mat_nla]
      cases hp : mat f r prev cs caps (fun p2 r2 c2 => some (p2, r2, c2)) with
      | none =>
        exact hk prev cs caps (List.suffix_refl cs) (by simp) (fun _ => rfl)
          (fun h => absurd h (lt_irrefl _))
      | some x => rfl
    | nlb q =>
      obtain rfl : L = [0] := (Option.some.inj hlens).symm
      cases prev with
      | none =>
        rw [mat_nlb_none]
        exact hk none cs caps (List.suffix_refl cs) (by simp) (fun _ => rfl)
          (fun h => absurd h (lt_irrefl _))
      | some c =>
        rw [mat_nlb_some]
        by_cases hq : q c = true
        · rw [if_pos hq]
        · rw [if_neg hq]
          exact hk (some c) cs caps (List.suffix_refl cs) (by simp) (fun _ => rfl)
            (fun h => absurd h (lt_irrefl _))
    | grp n r =>
      rw [mat_grp]
      exact ih r L prev cs caps _ hlens hall
        (fun p2 rest c2 hsuf hm h3 h4 => hk p2 rest _ hsuf hm h3 h4)

/-! ### From the length analysis to whole-scan identity -/

/-- A pattern whose digit-consumption lengths all exceed the input length
cannot match at any position of an all-digit input. -/
theorem topMatch_none_of_lens (re : RE) (h : lensAllGt re 11 = true)
    (prev : Option Char) (cs : List Char) (hlen : cs.length ≤ 11)
    (hdig : ∀ c ∈ cs, c.isDigit = true) : topMatch re prev cs = none := by
  have h' : (match lensD re with
      | some L => L.all (fun l => 11 < l)
      | none => false) = true := h
  cases hL : lensD re with
  | none => rw [hL] at h'; exact Bool.noConfusion h'
  | some L =>
    rw [hL] at h'
    unfold topMatch
    refine mat_lens_none (matFuel cs) re L prev cs [] _ hL hdig ?_
    intro p2 rest c2 hsuf hcons _ _
    exfalso
    have h1 : 11 < cs.length - rest.length := by
      have := List.all_eq_true.mp h' _ hcons
      simpa using this
    have h2 := hsuf.length_le
    omega

/-- The scanning loop copies the input unchanged when the pattern matches at
no position (the first position with the ambient previous character, every
later one preceded by a digit). -/
theorem subGo_skip (re : RE) (repl : List Char → Caps → List Char) :
    ∀ (fuel : Nat) (prev : Option Char) (cs : List Char),
    (∀ prev2 cs2, cs2 <:+ cs →
      ((cs2 = cs ∧ prev2 = prev) ∨ ∃ d, prev2 = some d ∧ d.isDigit = true) →
      topMatch re prev2 cs2 = none) →
    (∀ c ∈ cs, c.isDigit = true) →
    subGo re repl fuel prev cs = cs
  | 0, prev, cs, _, _ => rfl
  | fuel + 1, prev, cs, H, hd => by
    rw [subGo_succ, H prev cs (List.suffix_refl cs) (Or.inl ⟨rfl, rfl⟩)]
    cases cs with
    | nil => rfl
    | cons c rest =>
      have hrest : subGo re repl fuel (some c) rest = rest := by
        refine subGo_skip re repl fuel (some c) rest ?_
          (fun x hx => hd x (List.mem_cons_of_mem c hx))
        intro prev2 cs2 hsuf hdisj
        refine H prev2 cs2 (hsuf.trans (List.suffix_cons c rest)) ?_
        rcases hdisj with ⟨rfl, rfl⟩ | h2
        · exact Or.inr ⟨c, rfl, hd c (List.mem_cons_self _ _)⟩
        · exact Or.inr h2
      show c :: subGo re repl fuel (some c) rest = c :: rest
      rw [hrest]

/-- `pattern.sub` is the identity on an all-digit input the pattern matches
nowhere in. -/
theorem subst_id (re : RE) (repl : List Char → Caps → List Char) (s : List Char)
    (hdig : ∀ c ∈ s, c.isDigit = true)
    (h : ∀ prev cs, cs <:+ s →
      ((cs = s ∧ prev = none) ∨ ∃ d, prev = some d ∧ d.isDigit = true) →
      topMatch re prev cs = none) :
    subst re repl s = s := by
  unfold subst
  exact subGo_skip re repl (s.length + 1) none s h hdig

/-- Any rule whose pattern consumes more than eleven digits is the identity on
digit strings of length at most eleven. -/
theorem mkRule_apply_id (nm : String) (re : RE) (repl : List Char → Caps → List Char)
    (h : lensAllGt re 11 = true) (s : String) (hlen : s.data.length ≤ 11)
    (hdig : ∀ c ∈ s.data, c.isDigit = true) : (mkRule nm re repl).apply s = s := by
  show String.mk (subst re repl s.data) = s
  rw [subst_id re repl s.data hdig (fun prev cs hsuf _ =>
    topMatch_none_of_lens re h prev cs (le_trans hsuf.length_le hlen)
      (fun c hc => hdig c (hsuf.subset hc)))]

/-! ### The optional markdown-marker wrapper on digit input -/

/-- `[_*]+` fails on empty input and on input starting with a digit. -/
theorem mat_plusMark_none (fuel : Nat) (prev : Option Char) (cs : List Char)
    (caps : Caps) (k : Option Char → List Char → Caps → Option MRes)
    (h : cs = [] ∨ ∃ c r2, cs = c :: r2 ∧ c.isDigit = true) :
    mat fuel (plusR cMark) prev cs caps k = none := by
  rcases fuel with _ | _ | f
  · rfl
  · rw [show plusR cMark = .seq cMark (.star cMark) from rfl, mat_seq]
    rfl
  · rw [show plusR cMark = .seq cMark (.star cMark) from rfl, mat_seq]
    rcases h with rfl | ⟨c, r2, rfl, hc⟩
    · rfl
    · rw [show cMark = RE.cls (cSet "_*") from rfl, mat_cls_cons]
      simp [digit_not_mark c hc]

/-- `(?:[_*]+)?` is transparent on empty input and on input starting with a
digit. -/
theorem mat_optmark (f : Nat) (prev : Option Char) (cs : List Char) (caps : Caps)
    (k : Option Char → List Char → Caps → Option MRes)
    (h : cs = [] ∨ ∃ c r2, cs = c :: r2 ∧ c.isDigit = true) :
    mat (f + 2) (optR (plusR cMark)) prev cs caps k = k prev cs caps := by
  rw [show optR (plusR cMark) = RE.alt (plusR cMark) RE.eps from rfl, mat_alt,
    mat_plusMark_none (f + 1) prev cs caps k h]
  rw [mat_eps]

/-! ### Exact consumption of `\d` repetitions -/

/-- Consuming one more character shifts the tracked previous character. -/
theorem prevEnd_cons (prev : Option Char) (d : Char) (ds : List Char) :
    prevEnd prev (d :: ds) = prevEnd (some d) ds := by
  cases ds with
  | nil => rfl
  | cons e l =>
    cases he : (e :: l).getLast? with
    | none => exact absurd (List.getLast?_eq_none_iff.mp he) (by simp)
    | some x => simp [prevEnd, List.getLast?_cons_cons, he]

/-- A nonempty consumed slice determines the tracked previous character as a
member of the slice. -/
theorem prevEnd_some (prev : Option Char) (ds : List Char) (h : ds ≠ []) :
    ∃ d, prevEnd prev ds = some d ∧ d ∈ ds := by
  cases hL : ds.getLast? with
  | none => exact absurd (List.getLast?_eq_none_iff.mp hL) h
  | some d =>
    refine ⟨d, by simp [prevEnd, hL], List.mem_of_mem_getLast? ?_⟩
    rw [hL]
    rfl

/-- `\d` repeated exactly `n` times consumes the whole remaining input when
that input consists of exactly `n` digits. -/
theorem mat_repD_full : ∀ (n g : Nat) (prev : Option Char) (ds : List Char)
    (caps : Caps) (k : Option Char → List Char → Caps → Option MRes),
    ds.length = n → (∀ c ∈ ds, c.isDigit = true) →
    mat (g + (2 * n + 1)) (.rep n n cD) prev ds caps k
      = k (prevEnd prev ds) [] caps
  | 0, g, prev, ds, caps, k, hlen, _ => by
    obtain rfl : ds = [] := List.length_eq_zero.mp hlen
    rw [show g + (2 * 0 + 1) = g + 1 from by omega, mat_rep_zero]
    rfl
  | n + 1, g, prev, ds, caps, k, hlen, hdig => by
    obtain ⟨d, ds', rfl⟩ : ∃ d ds', ds = d :: ds' := by
      cases ds with
      | nil => simp at hlen
      | cons d ds' => exact ⟨d, ds', rfl⟩
    have hlen' : ds'.length = n := by simpa using hlen
    have hd : d.isDigit = true := hdig d (List.mem_cons_self d ds')
    have hdig' : ∀ c ∈ ds', c.isDigit = true :=
      fun c hc => hdig c (List.mem_cons_of_mem d hc)
    rw [show g + (2 * (n + 1) + 1) = (g + (2 * n + 2)) + 1 from by omega,
      mat_rep_succ,
      show g + (2 * n + 2) = (g + (2 * n + 1)) + 1 from by omega,
      show cD = RE.cls Char.isDigit from rfl, mat_cls_cons]
    simp only [hd, if_true]
    rw [show (g + (2 * n + 1)) + 1 = (g + 1) + (2 * n + 1) from by omega]
    have hrec := mat_repD_full n (g + 1) (some d) ds' caps k hlen' hdig'
    rw [prevEnd_cons]
    exact hrec

/-! ### The five patterns with digit-only consumption lengths at most eleven

`nip`, `krs`, `regon`, `postal` and `phone` can consume eleven or fewer
digits, so the generic length bound does not apply; each is killed on an
11-digit input by its boundary guards. -/

/-- `nip_rule`'s pattern matches nowhere in an 11-digit input. -/
theorem topMatch_nip_none (prev : Option Char) (s cs : List Char)
    (hlenS : s.length = 11) (hdig : ∀ c ∈ s, c.isDigit = true) (hsuf : cs <:+ s)
    (hdisj : (cs = s ∧ prev = none) ∨ ∃ d, prev = some d ∧ d.isDigit = true) :
    topMatch nipRE prev cs = none := by
  obtain ⟨g, hg⟩ : ∃ g, matFuel cs = g + 30 :=
    ⟨matFuel cs - 30, by unfold matFuel; omega⟩
  unfold topMatch
  rw [hg]
  rw [show nipRE = RE.seq (RE.nlb Char.isDigit) (RE.seq (optR (plusR cMark))
    (RE.seq (RE.grp 1 (RE.alt tenDigitsHyph (RE.rep 10 10 cD)))
      (RE.seq (optR (plusR cMark)) (RE.nla cD)))) from rfl]
  rw [mat_seq]
  rcases hdisj with ⟨rfl, rfl⟩ | ⟨d, rfl, hd⟩
  · obtain ⟨c0, s', heq⟩ : ∃ c0 s', cs = c0 :: s' := by
      cases cs with
      | nil => simp at hlenS
      | cons a b => exact ⟨a, b, rfl⟩
    rw [mat_nlb_none]
    rw [mat_seq,
      mat_optmark _ _ _ _ _
        (Or.inr ⟨c0, s', heq, hdig c0 (by rw [heq]; exact List.mem_cons_self _ _)⟩)]
    try simp only []
    rw [mat_seq]
    refine mat_lens_none (g + 27) _ [10] none cs [] _ (by decide) hdig ?_
    intro p2 rest c2 hsufr hcons h0 hpos
    have hc10 : cs.length - rest.length = 10 := by simpa using hcons
    have hrle := hsufr.length_le
    have hr1 : rest.length = 1 := by omega
    obtain ⟨r1, rtl, rfl⟩ : ∃ r1 rtl, rest = r1 :: rtl := by
      cases rest with
      | nil => simp at hr1
      | cons a t => exact ⟨a, t, rfl⟩
    have hr1d : r1.isDigit = true := hdig r1 (hsufr.subset (List.mem_cons_self _ _))
    obtain ⟨dp, rfl, hdp⟩ := hpos (by omega)
    try simp only []
    rw [mat_seq, mat_optmark _ _ _ _ _ (Or.inr ⟨r1, rtl, rfl, hr1d⟩)]
    try simp only []
    rw [mat_nla, show cD = RE.cls Char.isDigit from rfl, mat_cls_cons]
    simp [hr1d]
  · rw [mat_nlb_some]
    simp [hd]

/-- `postal_code_rule`'s pattern matches nowhere in an 11-digit input. -/
theorem topMatch_postal_none (prev : Option Char) (s cs : List Char)
    (hlenS : s.length = 11) (hdig : ∀ c ∈ s, c.isDigit = true) (hsuf : cs <:+ s)
    (hdisj : (cs = s ∧ prev = none) ∨ ∃ d, prev = some d ∧ d.isDigit = true) :
    topMatch postalRE prev cs = none := by
  obtain ⟨g, hg⟩ : ∃ g, matFuel cs = g + 30 :=
    ⟨matFuel cs - 30, by unfold matFuel; omega⟩
  unfold topMatch
  rw [hg]
  rw [show postalRE = RE.seq (RE.nlb Char.isDigit) (RE.seq (optR (plusR cMark))
    (RE.seq (RE.grp 1 (seqL [RE.rep 2 2 cD, optR (litS "-"), RE.rep 3 3 cD]))
      (RE.seq (optR (plusR cMark)) (RE.nla cD)))) from rfl]
  rw [mat_seq]
  rcases hdisj with ⟨rfl, rfl⟩ | ⟨d, rfl, hd⟩
  · obtain ⟨c0, s', heq⟩ : ∃ c0 s', cs = c0 :: s' := by
      cases cs with
      | nil => simp at hlenS
      | cons a b => exact ⟨a, b, rfl⟩
    rw [mat_nlb_none]
    rw [mat_seq,
      mat_optmark _ _ _ _ _
        (Or.inr ⟨c0, s', heq, hdig c0 (by rw [heq]; exact List.mem_cons_self _ _)⟩)]
    try simp only []
    rw [mat_seq]
    refine mat_lens_none (g + 27) _ [5] none cs [] _ (by decide) hdig ?_
    intro p2 rest c2 hsufr hcons h0 hpos
    have hc5 : cs.length - rest.length = 5 := by simpa using hcons
    have hrle := hsufr.length_le
    have hr6 : rest.length = 6 := by omega
    obtain ⟨r1, rtl, rfl⟩ : ∃ r1 rtl, rest = r1 :: rtl := by
      cases rest with
      | nil => simp at hr6
      | cons a t => exact ⟨a, t, rfl⟩
    have hr1d : r1.isDigit = true := hdig r1 (hsufr.subset (List.mem_cons_self _ _))
    obtain ⟨dp, rfl, hdp⟩ := hpos (by omega)
    try simp only []
    rw [mat_seq, mat_optmark _ _ _ _ _ (Or.inr ⟨r1, rtl, rfl, hr1d⟩)]
    try simp only []
    rw [mat_nla, show cD = RE.cls Char.isDigit from rfl, mat_cls_cons]
    simp [hr1d]
  · rw [mat_nlb_some]
    simp [hd]

/-- `krs_rule`'s pattern matches nowhere in an 11-digit input. -/
theorem topMatch_krs_none (prev : Option Char) (s cs : List Char)
    (hlenS : s.length = 11) (hdig : ∀ c ∈ s, c.isDigit = true) (hsuf : cs <:+ s)
    (hdisj : (cs = s ∧ prev = none) ∨ ∃ d, prev = some d ∧ d.isDigit = true) :
    topMatch krsRE prev cs = none := by
  obtain ⟨g, hg⟩ : ∃ g, matFuel cs = g + 30 :=
    ⟨matFuel cs - 30, by unfold matFuel; omega⟩
  unfold topMatch
  rw [hg]
  rw [show krsRE = RE.seq RE.wb
    (RE.seq (RE.grp 1 (RE.alt tenDigitsHyph (RE.rep 10 10 cD))) RE.wb) from rfl]
  rw [mat_seq]
  rcases hdisj with ⟨rfl, rfl⟩ | ⟨d, rfl, hd⟩
  · obtain ⟨c0, s', heq⟩ : ∃ c0 s', cs = c0 :: s' := by
      cases cs with
      | nil => simp at hlenS
      | cons a b => exact ⟨a, b, rfl⟩
    have hb : boundaryAt none cs = true := by
      rw [heq]
      exact boundary_start c0 s' (hdig c0 (by rw [heq]; exact List.mem_cons_self _ _))
    rw [mat_wb, if_pos hb]
    rw [mat_seq]
    refine mat_lens_none (g + 28) _ [10] none cs [] _ (by decide) hdig ?_
    intro p2 rest c2 hsufr hcons h0 hpos
    have hc10 : cs.length - rest.length = 10 := by simpa using hcons
    have hrle := hsufr.length_le
    have hr1 : rest.length = 1 := by omega
    obtain ⟨r1, rtl, rfl⟩ : ∃ r1 rtl, rest = r1 :: rtl := by
      cases rest with
      | nil => simp at hr1
      | cons a t => exact ⟨a, t, rfl⟩
    have hr1d : r1.isDigit = true := hdig r1 (hsufr.subset (List.mem_cons_self _ _))
    obtain ⟨dp, rfl, hdp⟩ := hpos (by omega)
    try simp only []
    rw [mat_wb]
    simp [boundary_dd dp r1 rtl hdp hr1d]
  · cases cs with
    | nil =>
      rw [mat_wb, if_pos (boundary_end d hd)]
      rw [mat_seq]
      refine mat_lens_none (g + 28) _ [10] (some d) [] [] _ (by decide) (by simp) ?_
      intro p2 rest c2 _ hcons _ _
      exfalso
      simp at hcons
    | cons c rest0 =>
      have hc : c.isDigit = true := hdig c (hsuf.subset (List.mem_cons_self _ _))
      rw [mat_wb]
      simp [boundary_dd d c rest0 hd hc]

/-- `regon_rule`'s pattern matches nowhere in an 11-digit input. -/
theorem topMatch_regon_none (prev : Option Char) (s cs : List Char)
    (hlenS : s.length = 11) (hdig : ∀ c ∈ s, c.isDigit = true) (hsuf : cs <:+ s)
    (hdisj : (cs = s ∧ prev = none) ∨ ∃ d, prev = some d ∧ d.isDigit = true) :
    topMatch regonRE prev cs = none := by
  obtain ⟨g, hg⟩ : ∃ g, matFuel cs = g + 30 :=
    ⟨matFuel cs - 30, by unfold matFuel; omega⟩
  unfold topMatch
  rw [hg]
  rw [show regonRE = RE.seq RE.wb
    (RE.seq (RE.grp 1 (seqL [RE.rep 2 2 cD, optR cS, RE.rep 3 3 cD, optR cS,
      RE.rep 4 4 cD, optR (RE.seq (optR cS) (RE.rep 5 5 cD))])) RE.wb) from rfl]
  rw [mat_seq]
  rcases hdisj with ⟨rfl, rfl⟩ | ⟨d, rfl, hd⟩
  · obtain ⟨c0, s', heq⟩ : ∃ c0 s', cs = c0 :: s' := by
      cases cs with
      | nil => simp at hlenS
      | cons a b => exact ⟨a, b, rfl⟩
    have hb : boundaryAt none cs = true := by
      rw [heq]
      exact boundary_start c0 s' (hdig c0 (by rw [heq]; exact List.mem_cons_self _ _))
    rw [mat_wb, if_pos hb]
    rw [mat_seq]
    refine mat_lens_none (g + 28) _ [14, 9] none cs [] _ (by decide) hdig ?_
    intro p2 rest c2 hsufr hcons h0 hpos
    have hrle := hsufr.length_le
    have hc : cs.length - rest.length = 14 ∨ cs.length - rest.length = 9 := by
      simpa using hcons
    have hr2 : rest.length = 2 := by omega
    obtain ⟨r1, rtl, rfl⟩ : ∃ r1 rtl, rest = r1 :: rtl := by
      cases rest with
      | nil => simp at hr2
      | cons a t => exact ⟨a, t, rfl⟩
    have hr1d : r1.isDigit = true := hdig r1 (hsufr.subset (List.mem_cons_self _ _))
    obtain ⟨dp, rfl, hdp⟩ := hpos (by omega)
    try simp only []
    rw [mat_wb]
    simp [boundary_dd dp r1 rtl hdp hr1d]
  · cases cs with
    | nil =>
      rw [mat_wb, if_pos (boundary_end d hd)]
      rw [mat_seq]
      refine mat_lens_none (g + 28) _ [14, 9] (some d) [] [] _ (by decide) (by simp) ?_
      intro p2 rest c2 _ hcons _ _
      exfalso
      simp at hcons
    | cons c rest0 =>
      have hc : c.isDigit = true := hdig c (hsuf.subset (List.mem_cons_self _ _))
      rw [mat_wb]
      simp [boundary_dd d c rest0 hd hc]

/-- `phone_rule`'s pattern matches nowhere in an 11-digit input. -/
theorem topMatch_phone_none (prev : Option Char) (s cs : List Char)
    (hlenS : s.length = 11) (hdig : ∀ c ∈ s, c.isDigit = true) (hsuf : cs <:+ s)
    (hdisj : (cs = s ∧ prev = none) ∨ ∃ d, prev = some d ∧ d.isDigit = true) :
    topMatch phoneRE prev cs = none := by
  obtain ⟨g, hg⟩ : ∃ g, matFuel cs = g + 30 :=
    ⟨matFuel cs - 30, by unfold matFuel; omega⟩
  unfold topMatch
  rw [hg]
  rw [show phoneRE = RE.seq RE.wb (RE.seq
    (RE.alt (seqL [RE.rep 3 3 cD, optR (RE.cls (fun c => isSpaceChar c || c = '-')),
                    RE.rep 3 3 cD, optR (RE.cls (fun c => isSpaceChar c || c = '-')),
                    RE.rep 3 3 cD])
             (seqL [RE.rep 2 2 cD, optR (RE.cls (fun c => isSpaceChar c || c = '-')),
                    RE.rep 3 3 cD, optR (RE.cls (fun c => isSpaceChar c || c = '-')),
                    RE.rep 2 2 cD, optR (RE.cls (fun c => isSpaceChar c || c = '-')),
                    RE.rep 2 2 cD]))
    RE.wb) from rfl]
  rw [mat_seq]
  rcases hdisj with ⟨rfl, rfl⟩ | ⟨d, rfl, hd⟩
  · obtain ⟨c0, s', heq⟩ : ∃ c0 s', cs = c0 :: s' := by
      cases cs with
      | nil => simp at hlenS
      | cons a b => exact ⟨a, b, rfl⟩
    have hb : boundaryAt none cs = true := by
      rw [heq]
      exact boundary_start c0 s' (hdig c0 (by rw [heq]; exact List.mem_cons_self _ _))
    rw [mat_wb, if_pos hb]
    rw [mat_seq]
    refine mat_lens_none (g + 28) _ [9] none cs [] _ (by decide) hdig ?_
    intro p2 rest c2 hsufr hcons h0 hpos
    have hc9 : cs.length - rest.length = 9 := by simpa using hcons
    have hrle := hsufr.length_le
    have hr2 : rest.length = 2 := by omega
    obtain ⟨r1, rtl, rfl⟩ : ∃ r1 rtl, rest = r1 :: rtl := by
      cases rest with
      | nil => simp at hr2
      | cons a t => exact ⟨a, t, rfl⟩
    have hr1d : r1.isDigit = true := hdig r1 (hsufr.subset (List.mem_cons_self _ _))
    obtain ⟨dp, rfl, hdp⟩ := hpos (by omega)
    try simp only []
    rw [mat_wb]
    simp [boundary_dd dp r1 rtl hdp hr1d]
  · cases cs with
    | nil =>
      rw [mat_wb, if_pos (boundary_end d hd)]
      rw [mat_seq]
      refine mat_lens_none (g + 28) _ [9] (some d) [] [] _ (by decide) (by simp) ?_
      intro p2 rest c2 _ hcons _ _
      exfalso
      simp at hcons
    | cons c rest0 =>
      have hc : c.isDigit = true := hdig c (hsuf.subset (List.mem_cons_self _ _))
      rw [mat_wb]
      simp [boundary_dd d c rest0 hd hc]

/-! ### Rule-level identities on invalid 11-digit strings -/

/-- `NipRule` leaves any 11-digit string unchanged. -/
theorem nip_apply_id (s : String) (hlen : s.data.length = 11)
    (hdig : ∀ c ∈ s.data, c.isDigit = true) : NipRule.apply s = s := by
  show String.mk (subst nipRE _ s.data) = s
  rw [subst_id nipRE _ s.data hdig (fun prev cs hsuf hdisj =>
    topMatch_nip_none prev s.data cs hlen hdig hsuf hdisj)]

/-- `PostalCodeRule` leaves any 11-digit string unchanged. -/
theorem postal_apply_id (s : String) (hlen : s.data.length = 11)
    (hdig : ∀ c ∈ s.data, c.isDigit = true) : PostalCodeRule.apply s = s := by
  show String.mk (subst postalRE _ s.data) = s
  rw [subst_id postalRE _ s.data hdig (fun prev cs hsuf hdisj =>
    topMatch_postal_none prev s.data cs hlen hdig hsuf hdisj)]

/-- `KrsRule` leaves any 11-digit string unchanged. -/
theorem krs_apply_id (s : String) (hlen : s.data.length = 11)
    (hdig : ∀ c ∈ s.data, c.isDigit = true) : KrsRule.apply s = s := by
  show String.mk (subst krsRE _ s.data) = s
  rw [subst_id krsRE _ s.data hdig (fun prev cs hsuf hdisj =>
    topMatch_krs_none prev s.data cs hlen hdig hsuf hdisj)]

/-- `RegonRule` leaves any 11-digit string unchanged. -/
theorem regon_apply_id (s : String) (hlen : s.data.length = 11)
    (hdig : ∀ c ∈ s.data, c.isDigit = true) : RegonRule.apply s = s := by
  show String.mk (subst regonRE _ s.data) = s
  rw [subst_id regonRE _ s.data hdig (fun prev cs hsuf hdisj =>
    topMatch_regon_none prev s.data cs hlen hdig hsuf hdisj)]

/-- `PhoneRule` leaves any 11-digit string unchanged. -/
theorem phone_apply_id (s : String) (hlen : s.data.length = 11)
    (hdig : ∀ c ∈ s.data, c.isDigit = true) : PhoneRule.apply s = s := by
  show String.mk (subst phoneRE _ s.data) = s
  rw [subst_id phoneRE _ s.data hdig (fun prev cs hsuf hdisj =>
    topMatch_phone_none prev s.data cs hlen hdig hsuf hdisj)]

/-! ### The PESEL rule on a bare 11-digit string -/

/-- On an 11-digit input the PESEL pattern matches at the start, consuming
everything and capturing the digits as group 1. -/
theorem mat_pesel_full (g : Nat) (s : List Char) (caps : Caps)
    (k : Option Char → List Char → Caps → Option MRes)
    (hlen : s.length = 11) (hdig : ∀ c ∈ s, c.isDigit = true) :
    mat (g + 30) peselRE none s caps k
      = k (prevEnd none s) [] ((1, s) :: caps) := by
  obtain ⟨c0, s', heq⟩ : ∃ c0 s', s = c0 :: s' := by
    cases s with
    | nil => simp at hlen
    | cons a b => exact ⟨a, b, rfl⟩
  rw [show peselRE = RE.seq (RE.nlb isWordChar) (RE.seq (optR (plusR cMark))
    (RE.seq (RE.grp 1 (RE.rep 11 11 cD))
      (RE.seq (optR (plusR cMark)) (RE.nla (RE.cls isWordChar))))) from rfl]
  rw [mat_seq, mat_nlb_none]
  rw [mat_seq,
    mat_optmark _ _ _ _ _
      (Or.inr ⟨c0, s', heq, hdig c0 (by rw [heq]; exact List.mem_cons_self _ _)⟩)]
  rw [mat_seq, mat_grp]
  try simp only []
  rw [show g + 26 = (g + 3) + (2 * 11 + 1) from by omega]
  rw [mat_repD_full 11 (g + 3) none s caps _ hlen hdig]
  try simp only []
  simp only [List.length_nil, Nat.sub_zero, List.take_length]
  rw [mat_seq, mat_optmark _ _ _ _ _ (Or.inl rfl)]
  try simp only []
  rw [mat_nla, mat_cls_nil]

/-- The anchored match of the PESEL pattern on an 11-digit input. -/
theorem topMatch_pesel (s : List Char) (hlen : s.length = 11)
    (hdig : ∀ c ∈ s, c.isDigit = true) :
    topMatch peselRE none s = some (prevEnd none s, [], [(1, s)]) := by
  unfold topMatch
  rw [show matFuel s = 1670 + 30 from by unfold matFuel; rw [hlen]]
  rw [mat_pesel_full 1670 s [] _ hlen hdig]

/-- The PESEL pattern never matches right after a digit (the lookbehind
rejects). -/
theorem topMatch_pesel_after (p : Char) (hp : p.isDigit = true) (cs : List Char) :
    topMatch peselRE (some p) cs = none := by
  obtain ⟨g, hg⟩ : ∃ g, matFuel cs = g + 30 :=
    ⟨matFuel cs - 30, by unfold matFuel; omega⟩
  unfold topMatch
  rw [hg]
  rw [show peselRE = RE.seq (RE.nlb isWordChar) (RE.seq (optR (plusR cMark))
    (RE.seq (RE.grp 1 (RE.rep 11 11 cD))
      (RE.seq (optR (plusR cMark)) (RE.nla (RE.cls isWordChar))))) from rfl]
  rw [mat_seq, mat_nlb_some]
  simp [digit_isWordChar p hp]

/-- `PeselRule` returns any checksum-invalid 11-digit string unchanged: the
pattern matches the whole string, the validator rejects, and the replacer
substitutes the captured digits back. -/
theorem pesel_apply_id (s : String) (hlen : s.data.length = 11)
    (hdig : ∀ c ∈ s.data, c.isDigit = true) (hinv : is_valid_pesel s = false) :
    PeselRule.apply s = s := by
  obtain ⟨dl, hdl, hdlm⟩ : ∃ d, prevEnd none s.data = some d ∧ d ∈ s.data :=
    prevEnd_some none s.data (by intro h; rw [h] at hlen; simp at hlen)
  show String.mk (subst peselRE _ s.data) = s
  unfold subst
  rw [show s.data.length + 1 = 11 + 1 from by rw [hlen]]
  rw [subGo_succ, topMatch_pesel s.data hlen hdig]
  try simp only []
  rw [if_pos (show ([] : List Char).length < s.data.length by simp [hlen])]
  simp only [List.length_nil, Nat.sub_zero, List.take_length]
  rw [show capGet [(1, s.data)] 1 = some s.data from rfl]
  try simp only []
  rw [(hinv : is_valid_pesel (String.mk s.data) = false)]
  rw [hdl]
  rw [show (11 : Nat) = 10 + 1 from rfl, subGo_succ,
    topMatch_pesel_after dl (hdig dl hdlm) []]
  simp

/-! ### The validator against the spec's checksum sentence -/

/-- On 11-digit strings the implemented validator agrees with the spec's
weighted mod-10 checksum formula. -/
theorem pesel_valid_iff (s : String) (hlen : s.data.length = 11)
    (hdig : s.data.all Char.isDigit = true) :
    is_valid_pesel s = spec_pesel_check s.data := by
  have hne : s.data.isEmpty = false := by
    cases h : s.data with
    | nil => rw [h] at hlen; simp at hlen
    | cons a b => rfl
  unfold is_valid_pesel spec_pesel_check pyIsDigit weightedSum
  simp [hne, hdig, hlen]

/-- C6.  An 11-digit string passes `is_valid_pesel` iff the spec's checksum
formula — weighted sum of the first ten digits by `[1,3,7,9,1,3,7,9,1,3]`,
checksum `(10 - (sum mod 10)) mod 10`, compared with the eleventh digit —
holds; `mask_text` masks the standalone valid PESEL `44051401359` as
`\x7b\x7bPESEL\x7d\x7d`; and every 11-digit string violating the checksum is
left unchanged by `mask_text` (no rule of the default set alters it). -/
theorem claim_C6 :
    (∀ s : String, s.data.length = 11 → s.data.all Char.isDigit = true →
      (is_valid_pesel s = true ↔ spec_pesel_check s.data = true)) ∧
    mask_text "44051401359" = "\x7b\x7bPESEL\x7d\x7d" ∧
    (∀ s : String, s.data.length = 11 → s.data.all Char.isDigit = true →
      is_valid_pesel s = false → mask_text s = s) := by
  refine ⟨?_, rfl, ?_⟩
  · intro s hlen hdig
    rw [pesel_valid_iff s hlen hdig]
  · intro s hlen hdig hinv
    have hdig' : ∀ c ∈ s.data, c.isDigit = true := List.all_eq_true.mp hdig
    have hle : s.data.length ≤ 11 := le_of_eq hlen
    have h01 : CreditCardRule.apply s = s := mkRule_apply_id _ _ _ (by decide) s hle hdig'
    have h02 : VinRule.apply s = s := mkRule_apply_id _ _ _ (by decide) s hle hdig'
    have h03 : PeselTaggedRule.apply s = s := mkRule_apply_id _ _ _ (by decide) s hle hdig'
    have h04 : PeselRule.apply s = s := pesel_apply_id s hlen hdig' hinv
    have h05 : NipRule.apply s = s := nip_apply_id s hlen hdig'
    have h06 : KrsRule.apply s = s := krs_apply_id s hlen hdig'
    have h07 : RegonRule.apply s = s := regon_apply_id s hlen hdig'
    have h08 : NrbRule.apply s = s := mkRule_apply_id _ _ _ (by decide) s hle hdig'
    have h09 : MacAddressRule.apply s = s := mkRule_apply_id _ _ _ (by decide) s hle hdig'
    have h10 : PassportRule.apply s = s := mkRule_apply_id _ _ _ (by decide) s hle hdig'
    have h11 : IdCardRule.apply s = s := mkRule_apply_id _ _ _ (by decide) s hle hdig'
    have h12 : SsnRule.apply s = s := mkRule_apply_id _ _ _ (by decide) s hle hdig'
    have h13 : PhoneInternationalRule.apply s = s :=
      mkRule_apply_id _ _ _ (by decide) s hle hdig'
    have h14 : EmailRule.apply s = s := mkRule_apply_id _ _ _ (by decide) s hle hdig'
    have h15 : UrlRule.apply s = s := mkRule_apply_id _ _ _ (by decide) s hle hdig'
    have h16 : IpRule.apply s = s := mkRule_apply_id _ _ _ (by decide) s hle hdig'
    have h17 : BankAccountRule.apply s = s := mkRule_apply_id _ _ _ (by decide) s hle hdig'
    have h18 : JwtRule.apply s = s := mkRule_apply_id _ _ _ (by decide) s hle hdig'
    have h19 : InvoiceNumberRule.apply s = s :=
      mkRule_apply_id _ _ _ (by decide) s hle hdig'
    have h20 : OrderNumberRule.apply s = s := mkRule_apply_id _ _ _ (by decide) s hle hdig'
    have h21 : TransactionRefRule.apply s = s :=
      mkRule_apply_id _ _ _ (by decide) s hle hdig'
    have h22 : DateWordRule.apply s = s := mkRule_apply_id _ _ _ (by decide) s hle hdig'
    have h23 : DateNumberRule.apply s = s := mkRule_apply_id _ _ _ (by decide) s hle hdig'
    have h24 : MoneyRule.apply s = s := mkRule_apply_id _ _ _ (by decide) s hle hdig'
    have h25 : PostalCodeRule.apply s = s := postal_apply_id s hlen hdig'
    have h26 : HealthIdRule.apply s = s := mkRule_apply_id _ _ _ (by decide) s hle hdig'
    have h27 : CarPlateRule.apply s = s := mkRule_apply_id _ _ _ (by decide) s hle hdig'
    have h28 : SimCardRule.apply s = s := mkRule_apply_id _ _ _ (by decide) s hle hdig'
    have h29 : SslCertRule.apply s = s := mkRule_apply_id _ _ _ (by decide) s hle hdig'
    have h30 : StreetNameRule.apply s = s := mkRule_apply_id _ _ _ (by decide) s hle hdig'
    have h31 : PhoneRule.apply s = s := phone_apply_id s hlen hdig'
    have h32 : SocialIdRule.apply s = s := mkRule_apply_id _ _ _ (by decide) s hle hdig'
    show maskTextWith ALL_MASKER_RULES s = s
    simp only [maskTextWith, ALL_MASKER_RULES, List.foldl_cons, List.foldl_nil]
    rw [h01, h02, h03, h04, h05, h06, h07, h08, h09, h10, h11, h12, h13, h14,
      h15, h16, h17, h18, h19, h20, h21, h22, h23, h24, h25, h26, h27, h28,
      h29, h30, h31, h32]

/-- C6 witness: the checksum equivalence instantiated at the valid PESEL
`44051401359`, and the unchanged-output statement instantiated at the
checksum-broken `12345678901`. -/
theorem claim_C6_witness :
    (is_valid_pesel "44051401359" = true ↔
      spec_pesel_check ("44051401359" : String).data = true) ∧
    mask_text "12345678901" = "12345678901" :=
  ⟨claim_C6.1 "44051401359" (by decide) (by decide),
   claim_C6.2.2 "12345678901" (by decide) (by decide) (by decide)⟩

end Masker
